import Mathlib

/-!
# Community-fund vote reconciliation (`service/communityFund/service.go`)

A shallow embedding of `matchedVote`, `GetProposalVotes`, `GetPaymentRequestVotes`,
`UpdateProposalVotes`, `UpdatePaymentRequestVotes` and `updatePoolVotes`.

* Go `error` values are `Option Error` (`none` is `nil`).
* The vote table is a `List Vote`; every outcome the code cannot control (connection
  failures, failing queries, the address resolver, the remote pool) is read from an
  `Env` value, so a statement quantified over `Env` covers every outcome pattern.
* The object-relational mapper the code calls (`Where/Find`, `Model/Updates`, `Create`,
  `Save`) is an external library; `dbFind`, `dbUpdates`, `dbCreate` and `dbSave` embed its
  documented behaviour for exactly the call shapes that occur in the source.
* Effects on collaborators that the statements below are about (address lookups and remote vote
  submissions) are recorded in a trace of `Event`s.
-/

namespace CommunityFund

/-! ## Data model -/

abbrev Error := String

/-- Go `model.VoteType`, a string type (line 202 compares it with a string literal). -/
abbrev VoteType := String

/-- Go `model.VoteChoice`, a string type (it keys the string-literal map of line 193). -/
abbrev VoteChoice := String

def ErrorUnableToGetProposalVotes : Error := "Unable to retrieve proposal votes"

def ErrorUnableToGetPaymentRequestVotes : Error := "Unable to retrieve payment request votes"

def ErrorUnableToMatchVote : Error := "Unable to match vote"

/-- Modelled from the spec: the constant `model.VoteTypeProposal`, declared in the
`model` package; the spec names the tag PROPOSAL and line 202 tests for that string. -/
def VoteTypeProposal : VoteType := "PROPOSAL"

/-- Modelled from the spec: the constant `model.VoteTypePaymentRequest`, declared in the
`model` package; the spec names the tag PAYMENT_REQUEST. -/
def VoteTypePaymentRequest : VoteType := "PAYMENT_REQUEST"

/-- Modelled from the spec: the record `model.Vote`, declared in the `model` package. The
fields `UserID`, `Type`, `Hash`, `Choice`, `Committed` are the ones the source reads and
writes (`Type_` stands for `Type`); `ID` is the primary key through which the mapper
addresses a row in `Model(&vote)` and `Save(&vote)`, with `0` the unset key. -/
structure Vote where
  ID : Nat
  UserID : Nat
  Type_ : VoteType
  Hash : String
  Choice : VoteChoice
  Committed : Bool
deriving DecidableEq, Repr

/-- The zero value of `model.Vote`, what an unassigned Go result variable holds. -/
def Vote.zero : Vote := ⟨0, 0, "", "", "", false⟩

/-- Go `VoteDto`: one intent of the caller. -/
structure VoteDto where
  Hash : String
  Choice : VoteChoice
deriving DecidableEq, Repr

/-- Go `account.User`; only `ID` is read. -/
structure User where
  ID : Nat
deriving DecidableEq, Repr

/-- The address record returned by `address.GetAddresses`; only `SpendingAddress` is read. -/
structure Address where
  SpendingAddress : String
deriving DecidableEq, Repr

/-- Calls made to the collaborators of the propagation pass. -/
inductive Event where
  | GetAddresses (userID : Nat)
  | ProposalVote (address hash choice : String)
  | PaymentRequestVote (address hash choice : String)
deriving DecidableEq, Repr

/-- Everything decided outside the code during one call. -/
structure Env where
  /-- Outcome of `database.NewConnection()` in `UpdateProposalVotes` / `UpdatePaymentRequestVotes`. -/
  connUpdate : Option Error
  /-- Outcome of `database.NewConnection()` in `GetProposalVotes` / `GetPaymentRequestVotes`. -/
  connGet : Option Error
  /-- Whether the `Find` query of the baseline fetch fails. -/
  findFails : Bool
  /-- Outcome of the `Updates` / `Create` statement issued for the intent at a given index. -/
  writeErr : Nat → Option Error
  /-- Outcome of `tx.Commit()`. -/
  commitErr : Option Error
  /-- Outcome of `database.NewConnection()` in `updatePoolVotes`. -/
  connPool : Option Error
  /-- Outcome of `address.GetAddresses(user)`. -/
  addresses : Except Error (List Address)
  /-- Error value returned by `navpool.NewPoolApi`. -/
  poolApiErr : Option Error
  /-- Outcome of the remote call made for the address at index `i` and the vote at index `j`. -/
  remote : Nat → Nat → Option Error
  /-- Whether the `db.Save` issued after a successful remote call at `(i, j)` takes effect. -/
  saveOk : Nat → Nat → Bool

/-- What a call leaves behind: the returned error, the vote table, the collaborator calls. -/
structure Result where
  err : Option Error
  rows : List Vote
  trace : List Event
deriving DecidableEq, Repr

/-! ## The vote table as the mapper sees it -/

/-- The key the data store assigns to the next inserted row. -/
def freshID (rows : List Vote) : Nat :=
  (rows.map (fun r => r.ID)).foldr max 0 + 1

/-- The query `db.Where(&model.Vote{UserID: user.ID, Type: t}).Find(&votes)`: a struct
condition contributes one equality per non-zero field, so a zero `user.ID` adds no
condition on the user column. -/
def dbFind (rows : List Vote) (userID : Nat) (t : VoteType) : List Vote :=
  rows.filter (fun r => (userID = 0 ∨ r.UserID = userID) ∧ (t = "" ∨ r.Type_ = t))

/-- The in-memory effect of `tx.Model(&vote).Updates(model.Vote{Choice: c, Committed: false})`
on `vote`: an update from a struct assigns its non-zero fields only, so `Choice` is assigned
when `c` is not the empty string and `Committed: false`, a zero value, assigns nothing. -/
def updatesModel (vote : Vote) (c : VoteChoice) : Vote :=
  if c = "" then vote else { vote with Choice := c }

/-- The statement issued by `tx.Model(&vote).Updates(model.Vote{Choice: c, Committed: false})`:
the non-zero fields of the struct are written to the row whose key is `vote.ID`. -/
def dbUpdates (rows : List Vote) (vote : Vote) (c : VoteChoice) : List Vote :=
  rows.map (fun r => if r.ID = vote.ID then updatesModel r c else r)

/-- The call `tx.Create(newVote)`: inserts all fields and writes the assigned key back into
the record; an unset key is replaced by a fresh one. -/
def dbCreate (rows : List Vote) (v : Vote) : List Vote × Vote :=
  let created := if v.ID = 0 then { v with ID := freshID rows } else v
  (rows ++ [created], created)

/-- The call `db.Save(&vote)`: writes every field of the record to the row with its key,
and inserts the record when it has no key or no row has its key. -/
def dbSave (rows : List Vote) (v : Vote) : List Vote :=
  if v.ID ≠ 0 ∧ (rows.any (fun r => r.ID = v.ID)) = true then
    rows.map (fun r => if r.ID = v.ID then v else r)
  else (dbCreate rows v).1

/-! ## The functions of `service.go` -/

/-- Go `matchedVote` (lines 168-178). -/
def matchedVote (hash : String) (voteType : VoteType) : List Vote → Vote × Option Error
  | [] => (Vote.zero, some ErrorUnableToMatchVote)
  | vote :: rest =>
    if hash = vote.Hash ∧ voteType = vote.Type_ then (vote, none)
    else matchedVote hash voteType rest

/-- Shared body of `GetProposalVotes` (lines 21-36) and `GetPaymentRequestVotes`
(lines 94-109), which differ in the type tag and in the error they substitute. -/
def getVotes (env : Env) (rows : List Vote) (t : VoteType) (unable : Error) (user : User) :
    List Vote × Option Error :=
  match env.connGet with
  | some e => ([], some e)
  | none =>
    if env.findFails then ([], some unable)
    else (dbFind rows user.ID t, none)

def GetProposalVotes (env : Env) (rows : List Vote) (user : User) : List Vote × Option Error :=
  getVotes env rows VoteTypeProposal ErrorUnableToGetProposalVotes user

def GetPaymentRequestVotes (env : Env) (rows : List Vote) (user : User) :
    List Vote × Option Error :=
  getVotes env rows VoteTypePaymentRequest ErrorUnableToGetPaymentRequestVotes user

/-- The map literal `voteOptions` of lines 193-197, indexed as Go indexes a map: a key
that is absent yields the zero value of the element type. -/
def voteOptions (c : VoteChoice) : String :=
  if c = "YES" then "yes"
  else if c = "NO" then "no"
  else if c = "ABSTAIN" then "remove"
  else ""

/-- The remote call of lines 202-206 for one address and one vote. -/
def poolCall (address : Address) (vote : Vote) : Event :=
  if vote.Type_ = "PROPOSAL" then
    Event.ProposalVote address.SpendingAddress vote.Hash (voteOptions vote.Choice)
  else
    Event.PaymentRequestVote address.SpendingAddress vote.Hash (voteOptions vote.Choice)

/-- The inner loop of `updatePoolVotes` (lines 201-211) for the address at index `i`,
from the vote at index `j` on. The loop variable `vote` is a copy, so setting
`vote.Committed` changes what is saved and not the list being ranged over. -/
def voteLoop (env : Env) (address : Address) (i : Nat) : List Vote → Nat → Result → Result
  | [], _, s => s
  | vote :: rest, j, s =>
    let err := env.remote i j
    let rows :=
      if err = none then
        if env.saveOk i j then dbSave s.rows { vote with Committed := true } else s.rows
      else s.rows
    voteLoop env address i rest (j + 1) ⟨err, rows, s.trace ++ [poolCall address vote]⟩

/-- The outer loop of `updatePoolVotes` (lines 200-212), from the address at index `i` on. -/
def addressLoop (env : Env) (votes : List Vote) : List Address → Nat → Result → Result
  | [], _, s => s
  | address :: rest, i, s =>
    addressLoop env votes rest (i + 1) (voteLoop env address i votes 0 s)

/-- Go `updatePoolVotes` (lines 180-215). The error of `navpool.NewPoolApi` is not tested
by the code: it is the value returned when the loops make no call. -/
def updatePoolVotes (env : Env) (rows : List Vote) (votes : List Vote) (user : User) : Result :=
  match env.connPool with
  | some e => ⟨some e, rows, []⟩
  | none =>
    match env.addresses with
    | .error e => ⟨some e, rows, [Event.GetAddresses user.ID]⟩
    | .ok addresses =>
      addressLoop env votes addresses 0 ⟨env.poolApiErr, rows, [Event.GetAddresses user.ID]⟩

/-- The loop of lines 55-78 / 128-151 from the intent at index `i` on: `tx` is the table
as seen inside the transaction, `modifiedVotes` the records collected so far. An error
result stands for the `tx.Rollback(); return err` exit. -/
def txLoop (env : Env) (user : User) (t : VoteType) (votes : List Vote) :
    List VoteDto → Nat → List Vote → List Vote → Except Error (List Vote × List Vote)
  | [], _, tx, modifiedVotes => .ok (tx, modifiedVotes)
  | voteDto :: rest, i, tx, modifiedVotes =>
    let m := matchedVote voteDto.Hash t votes
    if m.2 = none then
      match env.writeErr i with
      | some e => .error e
      | none =>
        txLoop env user t votes rest (i + 1) (dbUpdates tx m.1 voteDto.Choice)
          (modifiedVotes ++ [updatesModel m.1 voteDto.Choice])
    else
      let newVote : Vote :=
        { ID := 0, UserID := user.ID, Type_ := t, Hash := voteDto.Hash,
          Choice := voteDto.Choice, Committed := false }
      match env.writeErr i with
      | some e => .error e
      | none =>
        let c := dbCreate tx newVote
        txLoop env user t votes rest (i + 1) c.1 (modifiedVotes ++ [c.2])

/-- State at the end of the local phase of an update call (lines 39-84 / 112-156): the
error that ended the call there, if any, the vote table, and `modifiedVotes`. -/
structure LocalOutcome where
  err : Option Error
  rows : List Vote
  modifiedVotes : List Vote
deriving DecidableEq, Repr

/-- Lines 39-84 / 112-156: connection, baseline fetch, transaction loop and commit. A
rollback or a failed commit leaves the table as it was. -/
def localPhase (env : Env) (rows : List Vote) (t : VoteType) (unable : Error)
    (voteDtos : List VoteDto) (user : User) : LocalOutcome :=
  match env.connUpdate with
  | some e => ⟨some e, rows, []⟩
  | none =>
    match getVotes env rows t unable user with
    | (_, some e) => ⟨some e, rows, []⟩
    | (votes, none) =>
      match txLoop env user t votes voteDtos 0 rows [] with
      | .error e => ⟨some e, rows, []⟩
      | .ok (tx, modifiedVotes) =>
        match env.commitErr with
        | some e => ⟨some e, rows, []⟩
        | none => ⟨none, tx, modifiedVotes⟩

/-- Shared body of `UpdateProposalVotes` and `UpdatePaymentRequestVotes`: the local phase,
then `updatePoolVotes` on the committed table, whose error is the result of the call. -/
def updateVotes (env : Env) (rows : List Vote) (t : VoteType) (unable : Error)
    (voteDtos : List VoteDto) (user : User) : Result :=
  let l := localPhase env rows t unable voteDtos user
  match l.err with
  | some e => ⟨some e, l.rows, []⟩
  | none => updatePoolVotes env l.rows l.modifiedVotes user

/-- Go `UpdateProposalVotes` (lines 38-92). -/
def UpdateProposalVotes (env : Env) (rows : List Vote) (voteDtos : List VoteDto) (user : User) :
    Result :=
  updateVotes env rows VoteTypeProposal ErrorUnableToGetProposalVotes voteDtos user

/-- Go `UpdatePaymentRequestVotes` (lines 111-166). -/
def UpdatePaymentRequestVotes (env : Env) (rows : List Vote) (voteDtos : List VoteDto)
    (user : User) : Result :=
  updateVotes env rows VoteTypePaymentRequest ErrorUnableToGetPaymentRequestVotes voteDtos user

/-! ## Vocabulary of the statements -/

/-- Whether an event is a remote vote submission. -/
def Event.isSubmission : Event → Bool
  | Event.GetAddresses _ => false
  | Event.ProposalVote _ _ _ => true
  | Event.PaymentRequestVote _ _ _ => true

/-- The remote vote submissions of a trace, in the order they were made. -/
def submissions (tr : List Event) : List Event :=
  tr.filter Event.isSubmission

/-- The committed flag stored for the vote with key `id`, if the table has such a row. -/
def committedFlag (rows : List Vote) (id : Nat) : Option Bool :=
  (rows.find? (fun r => r.ID = id)).map (fun r => r.Committed)

/-- The uniqueness key of a row: (userID, type, hash). -/
def Vote.key (v : Vote) : Nat × VoteType × String :=
  (v.UserID, v.Type_, v.Hash)

/-- At most one row per (userID, type, hash). -/
def UniquePerKey (rows : List Vote) : Prop :=
  (rows.map Vote.key).Nodup

/-- Primary keys of the table are set and pairwise distinct. -/
def StoreWF (rows : List Vote) : Prop :=
  (rows.map (fun r => r.ID)).Nodup ∧ ∀ r ∈ rows, r.ID ≠ 0

/-- An intent of user `userID` is persisted in a table for vote type `t`: some row of that
user and type has the intent's hash and choice. -/
def Persisted (rows : List Vote) (userID : Nat) (t : VoteType) (d : VoteDto) : Prop :=
  ∃ r ∈ rows, r.UserID = userID ∧ r.Type_ = t ∧ r.Hash = d.Hash ∧ r.Choice = d.Choice

/-- An environment in which nothing fails, with the single address "addr1". -/
def envOk : Env :=
  { connUpdate := none, connGet := none, findFails := false, writeErr := fun _ => none,
    commitErr := none, connPool := none, addresses := .ok [⟨"addr1"⟩], poolApiErr := none,
    remote := fun _ _ => none, saveOk := fun _ _ => true }

/-- As `envOk`, with every remote submission failing. -/
def envRemoteDown : Env :=
  { envOk with remote := fun _ _ => some "pool unreachable" }

/-- As `envOk`, with the addresses "addr1" and "addr2", the submissions for the first
succeeding and those for the second failing. -/
def envSecondAddressDown : Env :=
  { envOk with
    addresses := .ok [⟨"addr1"⟩, ⟨"addr2"⟩]
    remote := fun i _ => if i = 0 then none else some "pool unreachable" }

/-- As `envOk`, with the submission for the first vote of the pass succeeding and the
submissions for the later ones failing. -/
def envLaterVotesDown : Env :=
  { envOk with remote := fun _ j => if j = 0 then none else some "pool unreachable" }

/-- The call has an address at index `i` and a vote with key `id` at index `j` whose
remote submission succeeds. -/
def SucceedsFor (env : Env) (addresses : List Address) (votes : List Vote) (id : Nat) : Prop :=
  ∃ i j a w, addresses[i]? = some a ∧ votes[j]? = some w ∧ w.ID = id ∧ env.remote i j = none

/-- Every remote submission made for a vote with key `id` succeeds. -/
def AllSucceedFor (env : Env) (addresses : List Address) (votes : List Vote) (id : Nat) : Prop :=
  ∀ i j a w, addresses[i]? = some a → votes[j]? = some w → w.ID = id → env.remote i j = none

/-- Everything a record holds apart from its committed flag. -/
def Vote.core (v : Vote) : Nat × Nat × VoteType × String × VoteChoice :=
  (v.ID, v.UserID, v.Type_, v.Hash, v.Choice)

/-- What holds inside the transaction after the intents `done` have been processed, for a
batch whose hashes are pairwise distinct: `rows0` is the table before the call, `tx` the
table as the transaction sees it, `modified` the records collected so far. -/
structure TxInv (rows0 : List Vote) (user : User) (t : VoteType) (done : List VoteDto)
    (tx modified : List Vote) : Prop where
  idInj : ∀ r ∈ tx, ∀ r2 ∈ tx, r.ID = r2.ID → r = r2
  idSet : ∀ r ∈ tx, r.ID ≠ 0
  intact : ∀ b ∈ rows0, (b.Type_ = t ∧ b.Hash ∈ done.map VoteDto.Hash) ∨ b ∈ tx
  mods : ∀ m ∈ modified, m ∈ tx ∧ m.Type_ = t ∧ m.Hash ∈ done.map VoteDto.Hash
  origin : ∀ r ∈ tx,
    (∃ b ∈ rows0, b.key = r.key) ∨ (r.Type_ = t ∧ r.Hash ∈ done.map VoteDto.Hash)
  content : ∀ d ∈ done, ∃ m ∈ modified, m.Type_ = t ∧ m.Hash = d.Hash ∧
    (d.Choice ≠ "" → m.Choice = d.Choice) ∧ (user.ID ≠ 0 → m.UserID = user.ID)
  uniq : UniquePerKey rows0 → UniquePerKey tx

/-- What holds of the table during propagation of the records `modified`: keys identify
rows, and every record has a row that differs from it in the committed flag at most. -/
structure PropInv (rows modified : List Vote) : Prop where
  idInj : ∀ r ∈ rows, ∀ r2 ∈ rows, r.ID = r2.ID → r = r2
  stored : ∀ m ∈ modified, m.ID ≠ 0 ∧ ∃ r ∈ rows, r.core = m.core

/-! ## `matchedVote` -/

theorem matchedVote_none_iff (h : String) (t : VoteType) (B : List Vote) :
    (matchedVote h t B).2 = none ↔ ∃ v ∈ B, v.Hash = h ∧ v.Type_ = t := by
  induction B with
  | nil => simp [matchedVote]
  | cons b rest ih =>
    unfold matchedVote
    by_cases hb : h = b.Hash ∧ t = b.Type_
    · rw [if_pos hb]
      simp only [List.mem_cons, true_iff]
      exact ⟨b, Or.inl rfl, hb.1.symm, hb.2.symm⟩
    · rw [if_neg hb, ih]
      constructor
      · rintro ⟨v, hv, hh⟩
        exact ⟨v, List.mem_cons_of_mem _ hv, hh⟩
      · rintro ⟨v, hv, hh⟩
        rcases List.mem_cons.1 hv with rfl | hv
        · exact absurd ⟨hh.1.symm, hh.2.symm⟩ hb
        · exact ⟨v, hv, hh⟩

theorem matchedVote_first (h : String) (t : VoteType) (B : List Vote)
    (hex : ∃ v ∈ B, v.Hash = h ∧ v.Type_ = t) :
    ∃ pre v post, B = pre ++ v :: post ∧ (∀ u ∈ pre, ¬ (u.Hash = h ∧ u.Type_ = t)) ∧
      v.Hash = h ∧ v.Type_ = t ∧ matchedVote h t B = (v, none) := by
  induction B with
  | nil => simp at hex
  | cons b rest ih =>
    by_cases hb : h = b.Hash ∧ t = b.Type_
    · refine ⟨[], b, rest, rfl, by simp, hb.1.symm, hb.2.symm, ?_⟩
      unfold matchedVote
      rw [if_pos hb]
    · have hex2 : ∃ v ∈ rest, v.Hash = h ∧ v.Type_ = t := by
        obtain ⟨v, hv, hh⟩ := hex
        rcases List.mem_cons.1 hv with rfl | hv
        · exact absurd ⟨hh.1.symm, hh.2.symm⟩ hb
        · exact ⟨v, hv, hh⟩
      obtain ⟨pre, v, post, hB, hpre, hvh, hvt, hm⟩ := ih hex2
      refine ⟨b :: pre, v, post, by rw [hB]; rfl, ?_, hvh, hvt, ?_⟩
      · intro u hu
        rcases List.mem_cons.1 hu with rfl | hu
        · exact fun hh => hb ⟨hh.1.symm, hh.2.symm⟩
        · exact hpre u hu
      · unfold matchedVote
        rw [if_neg hb, hm]

theorem matchedVote_miss (h : String) (t : VoteType) (B : List Vote)
    (hno : ¬ ∃ v ∈ B, v.Hash = h ∧ v.Type_ = t) :
    matchedVote h t B = (Vote.zero, some ErrorUnableToMatchVote) := by
  induction B with
  | nil => rfl
  | cons b rest ih =>
    have hb : ¬ (h = b.Hash ∧ t = b.Type_) :=
      fun hh => hno ⟨b, List.mem_cons_self _ _, hh.1.symm, hh.2.symm⟩
    unfold matchedVote
    rw [if_neg hb]
    exact ih (fun ⟨v, hv, hh⟩ => hno ⟨v, List.mem_cons_of_mem _ hv, hh⟩)

/-- C1: `matchedVote h t B` returns a nil error iff some vote of `B` has hash `h` and
type `t`; it then returns the first such vote in list order, and otherwise it returns the
zero vote together with `ErrorUnableToMatchVote`. -/
theorem matchedVote_spec (h : String) (t : VoteType) (B : List Vote) :
    ((matchedVote h t B).2 = none ↔ ∃ v ∈ B, v.Hash = h ∧ v.Type_ = t) ∧
    ((∃ v ∈ B, v.Hash = h ∧ v.Type_ = t) →
      ∃ pre v post, B = pre ++ v :: post ∧ (∀ u ∈ pre, ¬ (u.Hash = h ∧ u.Type_ = t)) ∧
        v.Hash = h ∧ v.Type_ = t ∧ matchedVote h t B = (v, none)) ∧
    ((¬ ∃ v ∈ B, v.Hash = h ∧ v.Type_ = t) →
      matchedVote h t B = (Vote.zero, some ErrorUnableToMatchVote)) :=
  ⟨matchedVote_none_iff h t B, matchedVote_first h t B, matchedVote_miss h t B⟩

/-! ## The propagation pass: calls made -/

theorem voteLoop_trace (env : Env) (a : Address) (i : Nat) (V : List Vote) (j : Nat)
    (s : Result) :
    (voteLoop env a i V j s).trace = s.trace ++ V.map (poolCall a) := by
  induction V generalizing j s with
  | nil => simp [voteLoop]
  | cons v rest ih =>
    unfold voteLoop
    simp only [ih, List.map_cons, List.append_assoc, List.singleton_append]

theorem addressLoop_trace (env : Env) (V : List Vote) (A : List Address) (i : Nat)
    (s : Result) :
    (addressLoop env V A i s).trace = s.trace ++ A.flatMap (fun a => V.map (poolCall a)) := by
  induction A generalizing i s with
  | nil => simp [addressLoop]
  | cons a rest ih =>
    unfold addressLoop
    rw [ih, voteLoop_trace, List.flatMap_cons, List.append_assoc]

theorem submissions_calls (A : List Address) (V : List Vote) :
    submissions (A.flatMap (fun a => V.map (poolCall a))) =
      A.flatMap (fun a => V.map (poolCall a)) := by
  unfold submissions
  rw [List.filter_eq_self]
  intro e he
  obtain ⟨a, -, hv⟩ := List.mem_flatMap.1 he
  obtain ⟨v, -, rfl⟩ := List.mem_map.1 hv
  unfold poolCall
  split <;> rfl

theorem updatePoolVotes_submissions (env : Env) (rows V : List Vote) (user : User)
    (A : List Address) (hconn : env.connPool = none) (haddr : env.addresses = .ok A) :
    submissions (updatePoolVotes env rows V user).trace =
      A.flatMap (fun a => V.map (poolCall a)) := by
  unfold updatePoolVotes
  simp only [hconn, haddr]
  rw [addressLoop_trace]
  show submissions (Event.GetAddresses user.ID :: _) = _
  have h := submissions_calls A V
  unfold submissions at h ⊢
  rw [List.filter_cons]
  simpa [Event.isSubmission] using h

theorem length_calls (A : List Address) (V : List Vote) :
    (A.flatMap (fun a => V.map (poolCall a))).length = A.length * V.length := by
  induction A with
  | nil => simp
  | cons a rest ih =>
    rw [List.flatMap_cons, List.length_append, ih, List.length_map, List.length_cons]
    ring

theorem getElem_calls (A : List Address) (V : List Vote) (i j : Nat) (a : Address) (v : Vote)
    (ha : A[i]? = some a) (hv : V[j]? = some v) :
    (A.flatMap (fun a => V.map (poolCall a)))[i * V.length + j]? = some (poolCall a v) := by
  have hj : j < V.length := (List.getElem?_eq_some.1 hv).1
  induction A generalizing i with
  | nil => simp at ha
  | cons a0 rest ih =>
    rw [List.flatMap_cons]
    cases i with
    | zero =>
      simp only [List.getElem?_cons_zero, Option.some.injEq] at ha
      subst ha
      rw [List.getElem?_append_left (by simpa using hj)]
      simp [hv]
    | succ k =>
      rw [List.getElem?_cons_succ] at ha
      rw [List.getElem?_append_right (by rw [List.length_map]; nlinarith)]
      have e : (k + 1) * V.length + j - (List.map (poolCall a0) V).length = k * V.length + j := by
        rw [List.length_map, Nat.succ_mul]; omega
      rw [e]
      exact ih k ha

/-! ## The propagation pass: stored flags -/

theorem find_map_sameID (rows : List Vote) (f : Vote → Vote) (id : Nat)
    (hf : ∀ r, (f r).ID = r.ID) :
    (rows.map f).find? (fun r => r.ID = id) = (rows.find? (fun r => r.ID = id)).map f := by
  rw [List.find?_map]
  congr 1
  congr 1
  funext r
  simp [Function.comp, hf r]

theorem committedFlag_exists (rows : List Vote) (id : Nat) (b : Bool)
    (h : committedFlag rows id = some b) : ∃ r ∈ rows, r.ID = id := by
  unfold committedFlag at h
  cases hf : rows.find? (fun r => r.ID = id) with
  | none => rw [hf] at h; simp at h
  | some r =>
    exact ⟨r, List.mem_of_find?_eq_some hf, by simpa using List.find?_some hf⟩

theorem dbSave_frame (rows : List Vote) (w : Vote) (id : Nat) (b : Bool)
    (h : committedFlag rows id = some b) (hne : w.ID ≠ id) :
    committedFlag (dbSave rows w) id = some b := by
  unfold committedFlag at h ⊢
  cases hf : rows.find? (fun r => r.ID = id) with
  | none => rw [hf] at h; simp at h
  | some r =>
    rw [hf] at h
    have hr : r.ID = id := by simpa using List.find?_some hf
    unfold dbSave
    split
    · rw [find_map_sameID _ _ _ (by intro r; split <;> simp_all), hf]
      have : ¬ r.ID = w.ID := fun e => hne (e ▸ hr)
      simpa [this] using h
    · unfold dbCreate
      simp only []
      rw [List.find?_append, hf]
      simpa using h

theorem dbSave_set (rows : List Vote) (w : Vote) (b : Bool)
    (h : committedFlag rows w.ID = some b) (h0 : w.ID ≠ 0) :
    committedFlag (dbSave rows w) w.ID = some w.Committed := by
  obtain ⟨r0, hr0, hid0⟩ := committedFlag_exists rows w.ID b h
  unfold committedFlag at h ⊢
  cases hf : rows.find? (fun r => r.ID = w.ID) with
  | none => rw [hf] at h; simp at h
  | some r =>
    have hr : r.ID = w.ID := by simpa using List.find?_some hf
    have hany : (rows.any (fun r => r.ID = w.ID)) = true :=
      List.any_eq_true.2 ⟨r0, hr0, by simpa using hid0⟩
    unfold dbSave
    rw [if_pos ⟨h0, hany⟩]
    rw [find_map_sameID _ _ _ (by intro r; split <;> simp_all), hf]
    simp [hr]

/-- One iteration of the inner loop leaves a stored flag in place, or raises it. -/
theorem voteStep_flag (rows : List Vote) (w : Vote) (id : Nat) (b : Bool)
    (h : committedFlag rows id = some b) (h0 : id ≠ 0) :
    ∃ b2, committedFlag (dbSave rows { w with Committed := true }) id = some b2 ∧
      (b = true → b2 = true) := by
  by_cases hw : w.ID = id
  · refine ⟨true, ?_, fun _ => rfl⟩
    have := dbSave_set rows { w with Committed := true } b (by simpa [hw] using h)
      (by simpa [hw] using h0)
    simpa [hw] using this
  · exact ⟨b, dbSave_frame rows _ id b h (by simpa using hw), fun hb => hb⟩

theorem voteLoop_flag_mono (env : Env) (a : Address) (i : Nat) (id : Nat) (h0 : id ≠ 0)
    (V : List Vote) (j : Nat) (s : Result) (b : Bool)
    (h : committedFlag s.rows id = some b) :
    ∃ b2, committedFlag (voteLoop env a i V j s).rows id = some b2 ∧ (b = true → b2 = true) := by
  induction V generalizing j s b with
  | nil => exact ⟨b, h, fun hb => hb⟩
  | cons v rest ih =>
    unfold voteLoop
    simp only []
    by_cases he : env.remote i j = none
    · by_cases hs : env.saveOk i j = true
      · obtain ⟨b1, hb1, hm1⟩ := voteStep_flag s.rows v id b h h0
        obtain ⟨b2, hb2, hm2⟩ := ih (j + 1) ⟨env.remote i j,
          dbSave s.rows { v with Committed := true }, s.trace ++ [poolCall a v]⟩ b1 hb1
        refine ⟨b2, ?_, fun hb => hm2 (hm1 hb)⟩
        simpa [he, hs] using hb2
      · obtain ⟨b2, hb2, hm2⟩ := ih (j + 1) ⟨env.remote i j, s.rows,
          s.trace ++ [poolCall a v]⟩ b h
        exact ⟨b2, by simpa [he, hs] using hb2, hm2⟩
    · obtain ⟨b2, hb2, hm2⟩ := ih (j + 1) ⟨env.remote i j, s.rows,
        s.trace ++ [poolCall a v]⟩ b h
      exact ⟨b2, by simpa [he] using hb2, hm2⟩

theorem addressLoop_flag_mono (env : Env) (V : List Vote) (id : Nat) (h0 : id ≠ 0)
    (A : List Address) (i : Nat) (s : Result) (b : Bool)
    (h : committedFlag s.rows id = some b) :
    ∃ b2, committedFlag (addressLoop env V A i s).rows id = some b2 ∧
      (b = true → b2 = true) := by
  induction A generalizing i s b with
  | nil => exact ⟨b, h, fun hb => hb⟩
  | cons a rest ih =>
    unfold addressLoop
    obtain ⟨b1, hb1, hm1⟩ := voteLoop_flag_mono env a i id h0 V 0 s b h
    obtain ⟨b2, hb2, hm2⟩ := ih (i + 1) _ b1 hb1
    exact ⟨b2, hb2, fun hb => hm2 (hm1 hb)⟩

/-- The inner loop keeps a stored flag when every call for that key fails. -/
theorem voteLoop_flag_keep (env : Env) (a : Address) (i : Nat) (id : Nat)
    (V : List Vote) (j : Nat) (s : Result) (b : Bool)
    (h : committedFlag s.rows id = some b)
    (hfail : ∀ k w, V[k]? = some w → w.ID = id → env.remote i (j + k) ≠ none) :
    committedFlag (voteLoop env a i V j s).rows id = some b := by
  induction V generalizing j s with
  | nil => exact h
  | cons v rest ih =>
    unfold voteLoop
    simp only []
    apply ih (j + 1)
    · show committedFlag (if env.remote i j = none then
        if env.saveOk i j = true then dbSave s.rows { v with Committed := true } else s.rows
        else s.rows) id = some b
      by_cases he : env.remote i j = none
      · rw [if_pos he]
        have hv : v.ID ≠ id := fun e => hfail 0 v (by simp) e (by simpa using he)
        split
        · exact dbSave_frame s.rows _ id b h (by simpa using hv)
        · exact h
      · rw [if_neg he]; exact h
    · intro k w hk hw
      have := hfail (k + 1) w (by simpa using hk) hw
      rwa [show j + 1 + k = j + (k + 1) by omega]

theorem addressLoop_flag_keep (env : Env) (V : List Vote) (id : Nat)
    (A : List Address) (i : Nat) (s : Result) (b : Bool)
    (h : committedFlag s.rows id = some b)
    (hfail : ∀ n k a w, A[n]? = some a → V[k]? = some w → w.ID = id →
      env.remote (i + n) k ≠ none) :
    committedFlag (addressLoop env V A i s).rows id = some b := by
  induction A generalizing i s with
  | nil => exact h
  | cons a rest ih =>
    unfold addressLoop
    apply ih (i + 1)
    · apply voteLoop_flag_keep env a i id V 0 s b h
      intro k w hk hw
      have := hfail 0 k a w (by simp) hk hw
      simpa using this
    · intro n k a2 w hn hk hw
      have := hfail (n + 1) k a2 w (by simpa using hn) hk hw
      rwa [show i + 1 + n = i + (n + 1) by omega]

/-- The inner loop raises the stored flag once a call for that key succeeds and is saved. -/
theorem voteLoop_flag_raise (env : Env) (a : Address) (i : Nat) (id : Nat) (h0 : id ≠ 0)
    (V : List Vote) (j : Nat) (s : Result) (b : Bool)
    (h : committedFlag s.rows id = some b) (k : Nat) (w : Vote)
    (hk : V[k]? = some w) (hw : w.ID = id) (hok : env.remote i (j + k) = none)
    (hsave : env.saveOk i (j + k) = true) :
    committedFlag (voteLoop env a i V j s).rows id = some true := by
  induction V generalizing j s b k with
  | nil => simp at hk
  | cons v rest ih =>
    unfold voteLoop
    simp only []
    cases k with
    | zero =>
      simp only [List.getElem?_cons_zero, Option.some.injEq] at hk
      subst hk
      simp only [Nat.add_zero] at hok hsave
      have hset := dbSave_set s.rows { v with Committed := true } b
        (by simpa [hw] using h) (by simpa [hw] using h0)
      obtain ⟨b2, hb2, hm⟩ := voteLoop_flag_mono env a i id h0 rest (j + 1)
        ⟨env.remote i j, dbSave s.rows { v with Committed := true },
          s.trace ++ [poolCall a v]⟩ true (by simpa [hw] using hset)
      rw [hm rfl] at hb2
      simpa [hok, hsave] using hb2
    | succ k =>
      rw [List.getElem?_cons_succ] at hk
      have hstep : ∃ b1, committedFlag (if env.remote i j = none then
          if env.saveOk i j = true then dbSave s.rows { v with Committed := true } else s.rows
          else s.rows) id = some b1 := by
        by_cases he : env.remote i j = none
        · rw [if_pos he]
          split
          · obtain ⟨b1, hb1, -⟩ := voteStep_flag s.rows v id b h h0
            exact ⟨b1, hb1⟩
          · exact ⟨b, h⟩
        · rw [if_neg he]; exact ⟨b, h⟩
      obtain ⟨b1, hb1⟩ := hstep
      exact ih (j + 1) _ b1 hb1 k hk (by rwa [show j + 1 + k = j + (k + 1) by omega])
        (by rwa [show j + 1 + k = j + (k + 1) by omega])

theorem addressLoop_flag_raise (env : Env) (V : List Vote) (id : Nat) (h0 : id ≠ 0)
    (A : List Address) (i : Nat) (s : Result) (b : Bool)
    (h : committedFlag s.rows id = some b) (n k : Nat) (a : Address) (w : Vote)
    (hn : A[n]? = some a) (hk : V[k]? = some w) (hw : w.ID = id)
    (hok : env.remote (i + n) k = none) (hsave : env.saveOk (i + n) k = true) :
    committedFlag (addressLoop env V A i s).rows id = some true := by
  induction A generalizing i s b n with
  | nil => simp at hn
  | cons a0 rest ih =>
    unfold addressLoop
    cases n with
    | zero =>
      have h1 := voteLoop_flag_raise env a0 i id h0 V 0 s b h k w hk hw
        (by simpa using hok) (by simpa using hsave)
      obtain ⟨b2, hb2, hm⟩ := addressLoop_flag_mono env V id h0 rest (i + 1) _ true h1
      rw [hm rfl] at hb2
      exact hb2
    | succ n =>
      rw [List.getElem?_cons_succ] at hn
      obtain ⟨b1, hb1, -⟩ := voteLoop_flag_mono env a0 i id h0 V 0 s b h
      exact ih (i + 1) _ b1 hb1 n hn (by rwa [show i + 1 + n = i + (n + 1) by omega])
        (by rwa [show i + 1 + n = i + (n + 1) by omega])

/-! ## The local phase: failures -/

theorem txLoop_fails (env : Env) (user : User) (t : VoteType) (votes : List Vote)
    (dtos : List VoteDto) (k : Nat) (tx modifiedVotes : List Vote)
    (h : ∃ i, i < dtos.length ∧ env.writeErr (k + i) ≠ none) :
    ∃ e, txLoop env user t votes dtos k tx modifiedVotes = .error e := by
  induction dtos generalizing k tx modifiedVotes with
  | nil => obtain ⟨i, hi, -⟩ := h; simp at hi
  | cons d rest ih =>
    obtain ⟨i, hi, hw⟩ := h
    unfold txLoop
    simp only []
    cases hk : env.writeErr k with
    | some e => split <;> exact ⟨e, rfl⟩
    | none =>
      have hrest : ∃ i, i < rest.length ∧ env.writeErr (k + 1 + i) ≠ none := by
        cases i with
        | zero => simp [hk] at hw
        | succ n =>
          refine ⟨n, by simpa using hi, ?_⟩
          rwa [show k + 1 + n = k + (n + 1) by omega]
      split
      · exact ih (k + 1) _ _ hrest
      · exact ih (k + 1) _ _ hrest

theorem localPhase_fails (env : Env) (rows : List Vote) (t : VoteType) (unable : Error)
    (dtos : List VoteDto) (user : User)
    (h : (getVotes env rows t unable user).2 ≠ none ∨
      (∃ i, i < dtos.length ∧ env.writeErr i ≠ none) ∨ env.commitErr ≠ none) :
    (localPhase env rows t unable dtos user).err ≠ none := by
  unfold localPhase
  cases hc : env.connUpdate with
  | some e => simp
  | none =>
    simp only []
    rcases hg : getVotes env rows t unable user with ⟨votes, _ | e⟩
    · simp only []
      rw [hg] at h
      rcases h with h | h | h
      · simp at h
      · obtain ⟨e, he⟩ := txLoop_fails env user t votes dtos 0 rows []
          (by simpa using h)
        rw [he]; simp
      · cases htx : txLoop env user t votes dtos 0 rows [] with
        | error e => simp
        | ok p =>
          cases hce : env.commitErr with
          | none => exact absurd hce h
          | some e => simp
    · simp

theorem updateVotes_of_local_error (env : Env) (rows : List Vote) (t : VoteType)
    (unable : Error) (dtos : List VoteDto) (user : User)
    (h : (localPhase env rows t unable dtos user).err ≠ none) :
    (updateVotes env rows t unable dtos user).err =
        (localPhase env rows t unable dtos user).err ∧
      (updateVotes env rows t unable dtos user).rows =
        (localPhase env rows t unable dtos user).rows ∧
      (updateVotes env rows t unable dtos user).trace = [] := by
  unfold updateVotes
  cases hl : (localPhase env rows t unable dtos user).err with
  | none => exact absurd hl h
  | some e => simp [hl]

theorem localPhase_error_rows (env : Env) (rows : List Vote) (t : VoteType)
    (unable : Error) (dtos : List VoteDto) (user : User)
    (h : (localPhase env rows t unable dtos user).err ≠ none) :
    (localPhase env rows t unable dtos user).rows = rows := by
  unfold localPhase at h ⊢
  cases hc : env.connUpdate with
  | some e => rfl
  | none =>
    simp only [hc] at h ⊢
    rcases hg : getVotes env rows t unable user with ⟨votes, _ | e⟩
    · simp only [hg] at h ⊢
      cases htx : txLoop env user t votes dtos 0 rows [] with
      | error e => rfl
      | ok p =>
        simp only [htx] at h ⊢
        cases hce : env.commitErr with
        | none => simp [hce] at h
        | some e => rfl
    · rfl

/-- C10: when the baseline fetch fails, or a create/update of the transaction fails, or
the commit fails, `UpdateProposalVotes` and `UpdatePaymentRequestVotes` return a non-nil
error and make no address lookup and no remote vote submission. -/
theorem no_propagation_without_commit (env : Env) (rows : List Vote) (dtos : List VoteDto)
    (user : User) :
    ((GetProposalVotes env rows user).2 ≠ none ∨
        (∃ i, i < dtos.length ∧ env.writeErr i ≠ none) ∨ env.commitErr ≠ none →
      (UpdateProposalVotes env rows dtos user).err ≠ none ∧
        (UpdateProposalVotes env rows dtos user).trace = []) ∧
    ((GetPaymentRequestVotes env rows user).2 ≠ none ∨
        (∃ i, i < dtos.length ∧ env.writeErr i ≠ none) ∨ env.commitErr ≠ none →
      (UpdatePaymentRequestVotes env rows dtos user).err ≠ none ∧
        (UpdatePaymentRequestVotes env rows dtos user).trace = []) := by
  constructor
  · intro h
    have hl := localPhase_fails env rows VoteTypeProposal ErrorUnableToGetProposalVotes
      dtos user h
    obtain ⟨he, -, ht⟩ := updateVotes_of_local_error env rows _ _ dtos user hl
    exact ⟨by unfold UpdateProposalVotes; rw [he]; exact hl, ht⟩
  · intro h
    have hl := localPhase_fails env rows VoteTypePaymentRequest
      ErrorUnableToGetPaymentRequestVotes dtos user h
    obtain ⟨he, -, ht⟩ := updateVotes_of_local_error env rows _ _ dtos user hl
    exact ⟨by unfold UpdatePaymentRequestVotes; rw [he]; exact hl, ht⟩

/-! ## The propagation pass: claims -/

/-- A record of a list with pairwise distinct primary keys sits at one index only. -/
theorem index_of_key (V : List Vote) (hnd : (V.map (fun r => r.ID)).Nodup) (j k : Nat)
    (v w : Vote) (hj : V[j]? = some v) (hk : V[k]? = some w) (hid : w.ID = v.ID) : k = j := by
  have h1 : (V.map (fun r => r.ID))[k]? = some v.ID := by
    rw [List.getElem?_map, hk]; simp [hid]
  have h2 : (V.map (fun r => r.ID))[j]? = some v.ID := by
    rw [List.getElem?_map, hj]; simp
  obtain ⟨b1, e1⟩ := List.getElem?_eq_some.1 h1
  obtain ⟨b2, e2⟩ := List.getElem?_eq_some.1 h2
  exact (List.Nodup.getElem_inj_iff hnd).1 (e1.trans e2.symm)

/-- C8 as amended: with the addresses resolved, `updatePoolVotes` makes one remote
submission per (address, vote) pair, address-major, `|A| * |V|` in all, whatever the
outcomes of the calls; a vote stored with committed = false is still stored with
committed = false after the pass when every submission made for a record of `V` with its
primary key fails; and when the primary keys of `V` are pairwise distinct, when every
submission made for the record itself fails. -/
theorem updatePoolVotes_independent (env : Env) (rows V : List Vote) (user : User)
    (A : List Address) (hconn : env.connPool = none) (haddr : env.addresses = .ok A) :
    submissions (updatePoolVotes env rows V user).trace =
        A.flatMap (fun a => V.map (poolCall a)) ∧
      (submissions (updatePoolVotes env rows V user).trace).length = A.length * V.length ∧
      (∀ v ∈ V, committedFlag rows v.ID = some false →
        (∀ i j a w, A[i]? = some a → V[j]? = some w → w.ID = v.ID → env.remote i j ≠ none) →
        committedFlag (updatePoolVotes env rows V user).rows v.ID = some false) ∧
      ((V.map (fun r => r.ID)).Nodup → ∀ j v, V[j]? = some v →
        committedFlag rows v.ID = some false →
        (∀ i a, A[i]? = some a → env.remote i j ≠ none) →
        committedFlag (updatePoolVotes env rows V user).rows v.ID = some false) := by
  have hs := updatePoolVotes_submissions env rows V user A hconn haddr
  have hgen : ∀ id, committedFlag rows id = some false →
      (∀ i j a w, A[i]? = some a → V[j]? = some w → w.ID = id → env.remote i j ≠ none) →
      committedFlag (updatePoolVotes env rows V user).rows id = some false := by
    intro id hflag hfail
    unfold updatePoolVotes
    simp only [hconn, haddr]
    apply addressLoop_flag_keep env V id A 0 _ false hflag
    intro n k a w hn hk hw
    simpa using hfail n k a w hn hk hw
  refine ⟨hs, by rw [hs, length_calls], fun v _ hflag hfail => hgen v.ID hflag hfail, ?_⟩
  intro hnd j v hj hflag hfail
  apply hgen v.ID hflag
  intro i k a w hi hk hw
  have hkj := index_of_key V hnd j k v w hj hk hw
  subst hkj
  exact hfail i a hi

/-- C9: the remote call made for the address at index `i` and the vote at index `j` is
the proposal-vote call when the vote has type PROPOSAL and the payment-request-vote call
when it has type PAYMENT_REQUEST, with arguments the spending address, the hash and the
token of the choice; the token of YES is "yes", of NO "no", of ABSTAIN "remove". -/
theorem updatePoolVotes_call_shape (env : Env) (rows V : List Vote) (user : User)
    (A : List Address) (hconn : env.connPool = none) (haddr : env.addresses = .ok A)
    (i j : Nat) (a : Address) (v : Vote) (ha : A[i]? = some a) (hv : V[j]? = some v) :
    (v.Type_ = VoteTypeProposal →
        (submissions (updatePoolVotes env rows V user).trace)[i * V.length + j]? =
          some (Event.ProposalVote a.SpendingAddress v.Hash (voteOptions v.Choice))) ∧
      (v.Type_ = VoteTypePaymentRequest →
        (submissions (updatePoolVotes env rows V user).trace)[i * V.length + j]? =
          some (Event.PaymentRequestVote a.SpendingAddress v.Hash (voteOptions v.Choice))) ∧
      voteOptions "YES" = "yes" ∧ voteOptions "NO" = "no" ∧ voteOptions "ABSTAIN" = "remove" := by
  rw [updatePoolVotes_submissions env rows V user A hconn haddr, getElem_calls A V i j a v ha hv]
  refine ⟨?_, ?_, by decide, by decide, by decide⟩
  · intro ht
    unfold poolCall
    rw [if_pos (by rw [ht]; rfl)]
  · intro ht
    unfold poolCall
    rw [if_neg (by rw [ht]; decide)]

/-- With the per-row saves taking effect, the flag stored under a key that was stored with
committed = false ends the pass true iff a submission made for a record with that key
succeeded. -/
theorem flag_any_same_key (env : Env) (rows V : List Vote) (user : User)
    (A : List Address) (hconn : env.connPool = none) (haddr : env.addresses = .ok A)
    (hA : A ≠ []) (hsave : ∀ i j, env.saveOk i j = true) (v : Vote) (hv : v ∈ V)
    (hid : v.ID ≠ 0) (hflag : committedFlag rows v.ID = some false) :
    (committedFlag (updatePoolVotes env rows V user).rows v.ID = some true ↔
        SucceedsFor env A V v.ID) ∧
      (committedFlag (updatePoolVotes env rows V user).rows v.ID = some false ↔
        ¬ SucceedsFor env A V v.ID) ∧
      (AllSucceedFor env A V v.ID →
        committedFlag (updatePoolVotes env rows V user).rows v.ID = some true) := by
  have hyes : SucceedsFor env A V v.ID →
      committedFlag (updatePoolVotes env rows V user).rows v.ID = some true := by
    rintro ⟨i, j, a, w, hi, hj, hw, hok⟩
    unfold updatePoolVotes
    simp only [hconn, haddr]
    exact addressLoop_flag_raise env V v.ID hid A 0 _ false hflag i j a w hi hj hw
      (by simpa using hok) (by simpa using hsave i j)
  have hno : ¬ SucceedsFor env A V v.ID →
      committedFlag (updatePoolVotes env rows V user).rows v.ID = some false := by
    intro hn
    unfold updatePoolVotes
    simp only [hconn, haddr]
    apply addressLoop_flag_keep env V v.ID A 0 _ false hflag
    intro n k a w hn2 hk hw hok
    exact hn ⟨n, k, a, w, hn2, hk, hw, by simpa using hok⟩
  refine ⟨⟨fun h => ?_, hyes⟩, ⟨fun h => ?_, hno⟩, fun hall => hyes ?_⟩
  · by_contra hn
    rw [hno hn] at h
    simp at h
  · intro hs
    rw [hyes hs] at h
    simp at h
  · obtain ⟨j, hj⟩ := List.mem_iff_getElem?.1 hv
    cases A with
    | nil => exact absurd rfl hA
    | cons a rest =>
      have h0 : (a :: rest)[0]? = some a := by simp
      exact ⟨0, j, a, v, h0, hj, rfl, hall 0 j a v h0 hj rfl⟩

/-! ## The transaction loop on a batch with pairwise distinct hashes -/

/-- C3 as amended: with the per-row saves taking effect, a propagated vote stored with
committed = false ends the pass with committed = true iff at least one submission made
for a record of `V` with its primary key succeeded, and with committed = false iff none
did; it is true when all of them succeed; and when the primary keys of `V` are pairwise
distinct, the flag is true iff at least one submission made for the record itself
succeeded and false iff all of them failed. -/
theorem updatePoolVotes_flag_any (env : Env) (rows V : List Vote) (user : User)
    (A : List Address) (hconn : env.connPool = none) (haddr : env.addresses = .ok A)
    (hA : A ≠ []) (hsave : ∀ i j, env.saveOk i j = true) (v : Vote) (hv : v ∈ V)
    (hid : v.ID ≠ 0) (hflag : committedFlag rows v.ID = some false) :
    (committedFlag (updatePoolVotes env rows V user).rows v.ID = some true ↔
        SucceedsFor env A V v.ID) ∧
      (committedFlag (updatePoolVotes env rows V user).rows v.ID = some false ↔
        ¬ SucceedsFor env A V v.ID) ∧
      (AllSucceedFor env A V v.ID →
        committedFlag (updatePoolVotes env rows V user).rows v.ID = some true) ∧
      ((V.map (fun r => r.ID)).Nodup → ∀ j, V[j]? = some v →
        (committedFlag (updatePoolVotes env rows V user).rows v.ID = some true ↔
          ∃ i a, A[i]? = some a ∧ env.remote i j = none) ∧
        (committedFlag (updatePoolVotes env rows V user).rows v.ID = some false ↔
          ∀ i a, A[i]? = some a → env.remote i j ≠ none)) := by
  obtain ⟨h1, h2, h3⟩ :=
    flag_any_same_key env rows V user A hconn haddr hA hsave v hv hid hflag
  refine ⟨h1, h2, h3, ?_⟩
  intro hnd j hj
  have hiff : SucceedsFor env A V v.ID ↔ ∃ i a, A[i]? = some a ∧ env.remote i j = none := by
    constructor
    · rintro ⟨i, k, a, w, hi, hk, hw, hok⟩
      have hkj := index_of_key V hnd j k v w hj hk hw
      subst hkj
      exact ⟨i, a, hi, hok⟩
    · rintro ⟨i, a, hi, hok⟩
      exact ⟨i, j, a, v, hi, hj, rfl, hok⟩
  refine ⟨h1.trans hiff, h2.trans ?_⟩
  rw [hiff]
  constructor
  · intro hn i a hi hok
    exact hn ⟨i, a, hi, hok⟩
  · rintro hall ⟨i, a, hi, hok⟩
    exact hall i a hi hok

theorem lt_freshID (rows : List Vote) (r : Vote) (h : r ∈ rows) : r.ID < freshID rows := by
  unfold freshID
  induction rows with
  | nil => simp at h
  | cons x rest ih =>
    simp only [List.map_cons, List.foldr_cons]
    rcases List.mem_cons.1 h with rfl | h
    · omega
    · have := ih h
      omega

theorem matchedVote_hit (h : String) (t : VoteType) (B : List Vote)
    (hm : (matchedVote h t B).2 = none) :
    (matchedVote h t B).1 ∈ B ∧ (matchedVote h t B).1.Hash = h ∧
      (matchedVote h t B).1.Type_ = t := by
  obtain ⟨pre, v, post, hB, -, hvh, hvt, hres⟩ :=
    matchedVote_first h t B ((matchedVote_none_iff h t B).1 hm)
  rw [hres]
  exact ⟨by rw [hB]; simp, hvh, hvt⟩

theorem mem_dbFind (rows : List Vote) (userID : Nat) (t : VoteType) (b : Vote) :
    b ∈ dbFind rows userID t ↔
      b ∈ rows ∧ (userID = 0 ∨ b.UserID = userID) ∧ (t = "" ∨ b.Type_ = t) := by
  unfold dbFind
  rw [List.mem_filter]
  simp

theorem updatesModel_ID (r : Vote) (c : VoteChoice) : (updatesModel r c).ID = r.ID := by
  unfold updatesModel; split <;> rfl

theorem updatesModel_key (r : Vote) (c : VoteChoice) : (updatesModel r c).key = r.key := by
  unfold updatesModel; split <;> rfl

theorem updatesModel_Choice (r : Vote) (c : VoteChoice) (hc : c ≠ "") :
    (updatesModel r c).Choice = c := by
  unfold updatesModel; rw [if_neg hc]

theorem TxInv.init (rows0 : List Vote) (user : User) (t : VoteType) (hwf : StoreWF rows0) :
    TxInv rows0 user t [] rows0 [] where
  idInj := by
    intro r hr r2 hr2 hid
    exact List.inj_on_of_nodup_map hwf.1 hr hr2 hid
  idSet := hwf.2
  intact := fun b hb => Or.inr hb
  mods := by intro m hm; simp at hm
  origin := fun r hr => Or.inl ⟨r, hr, rfl⟩
  content := by intro d hd; simp at hd
  uniq := fun h => h

theorem TxInv.update (rows0 : List Vote) (user : User) (t : VoteType) (done : List VoteDto)
    (tx modified : List Vote) (d : VoteDto) (inv : TxInv rows0 user t done tx modified)
    (hnew : d.Hash ∉ done.map VoteDto.Hash)
    (hm : (matchedVote d.Hash t (dbFind rows0 user.ID t)).2 = none) :
    TxInv rows0 user t (done ++ [d])
      (dbUpdates tx (matchedVote d.Hash t (dbFind rows0 user.ID t)).1 d.Choice)
      (modified ++ [updatesModel (matchedVote d.Hash t (dbFind rows0 user.ID t)).1 d.Choice]) := by
  obtain ⟨hbv, hbh, hbt⟩ := matchedVote_hit d.Hash t _ hm
  generalize (matchedVote d.Hash t (dbFind rows0 user.ID t)).1 = b at hbv hbh hbt
  obtain ⟨hb0, hbu, -⟩ := (mem_dbFind rows0 user.ID t b).1 hbv
  have hbtx : b ∈ tx := by
    rcases inv.intact b hb0 with ⟨-, hd⟩ | hd
    · rw [hbh] at hd; exact absurd hd hnew
    · exact hd
  have hmemU : ∀ r2, r2 ∈ dbUpdates tx b d.Choice ↔
      ∃ r ∈ tx, (if r.ID = b.ID then updatesModel r d.Choice else r) = r2 := by
    intro r2; unfold dbUpdates; rw [List.mem_map]
  have hfID : ∀ r : Vote, (if r.ID = b.ID then updatesModel r d.Choice else r).ID = r.ID := by
    intro r; split
    · exact updatesModel_ID r _
    · rfl
  have hfkey : ∀ r : Vote, (if r.ID = b.ID then updatesModel r d.Choice else r).key = r.key := by
    intro r; split
    · exact updatesModel_key r _
    · rfl
  have hdone : ∀ x, x ∈ done.map VoteDto.Hash → x ∈ (done ++ [d]).map VoteDto.Hash := by
    intro x hx; rw [List.map_append]; exact List.mem_append_left _ hx
  have hdn : d.Hash ∈ (done ++ [d]).map VoteDto.Hash := by
    rw [List.map_append]; exact List.mem_append_right _ (by simp)
  refine ⟨?_, ?_, ?_, ?_, ?_, ?_, ?_⟩
  · intro r hr r2 hr2 hid
    obtain ⟨x, hx, rfl⟩ := (hmemU r).1 hr
    obtain ⟨y, hy, rfl⟩ := (hmemU r2).1 hr2
    rw [hfID, hfID] at hid
    rw [inv.idInj x hx y hy hid]
  · intro r hr
    obtain ⟨x, hx, rfl⟩ := (hmemU r).1 hr
    rw [hfID]; exact inv.idSet x hx
  · intro b2 hb2
    rcases inv.intact b2 hb2 with ⟨ht, hd⟩ | hd
    · exact Or.inl ⟨ht, hdone _ hd⟩
    · by_cases hid : b2.ID = b.ID
      · have : b2 = b := inv.idInj b2 hd b hbtx hid
        subst this
        exact Or.inl ⟨hbt, by rw [hbh]; exact hdn⟩
      · exact Or.inr ((hmemU b2).2 ⟨b2, hd, by rw [if_neg hid]⟩)
  · intro m hmm
    rcases List.mem_append.1 hmm with hmm | hmm
    · obtain ⟨hmt, hty, hmh⟩ := inv.mods m hmm
      have hid : ¬ m.ID = b.ID := by
        intro hid
        have : m = b := inv.idInj m hmt b hbtx hid
        subst this
        rw [hbh] at hmh; exact hnew hmh
      exact ⟨(hmemU m).2 ⟨m, hmt, by rw [if_neg hid]⟩, hty, hdone _ hmh⟩
    · simp only [List.mem_singleton] at hmm
      subst hmm
      refine ⟨(hmemU _).2 ⟨b, hbtx, by rw [if_pos rfl]⟩, ?_, ?_⟩
      · have := updatesModel_key b d.Choice
        simp only [Vote.key, Prod.mk.injEq] at this
        rw [this.2.1]; exact hbt
      · have := updatesModel_key b d.Choice
        simp only [Vote.key, Prod.mk.injEq] at this
        rw [this.2.2, hbh]; exact hdn
  · intro r hr
    obtain ⟨x, hx, rfl⟩ := (hmemU r).1 hr
    rw [hfkey]
    have hk := hfkey x
    simp only [Vote.key, Prod.mk.injEq] at hk
    rw [hk.2.1, hk.2.2]
    rcases inv.origin x hx with h1 | ⟨h1, h2⟩
    · exact Or.inl h1
    · exact Or.inr ⟨h1, hdone _ h2⟩
  · intro d2 hd2
    have hk := updatesModel_key b d.Choice
    simp only [Vote.key, Prod.mk.injEq] at hk
    rcases List.mem_append.1 hd2 with hd2 | hd2
    · obtain ⟨m, hmm, hrest⟩ := inv.content d2 hd2
      exact ⟨m, List.mem_append_left _ hmm, hrest⟩
    · simp only [List.mem_singleton] at hd2
      subst hd2
      refine ⟨updatesModel b d2.Choice, List.mem_append_right _ (by simp), ?_, ?_, ?_, ?_⟩
      · rw [hk.2.1]; exact hbt
      · rw [hk.2.2]; exact hbh
      · exact updatesModel_Choice b _
      · intro hu
        rw [hk.1]
        rcases hbu with h0 | h0
        · exact absurd h0 hu
        · exact h0
  · intro hu
    have := inv.uniq hu
    unfold UniquePerKey at this ⊢
    have e : (dbUpdates tx b d.Choice).map Vote.key = tx.map Vote.key := by
      unfold dbUpdates
      rw [List.map_map]
      apply List.map_congr_left
      intro r _
      exact hfkey r
    rw [e]; exact this

theorem TxInv.create (rows0 : List Vote) (user : User) (t : VoteType) (done : List VoteDto)
    (tx modified : List Vote) (d : VoteDto) (inv : TxInv rows0 user t done tx modified)
    (hnew : d.Hash ∉ done.map VoteDto.Hash)
    (hm : (matchedVote d.Hash t (dbFind rows0 user.ID t)).2 ≠ none) :
    TxInv rows0 user t (done ++ [d])
      (dbCreate tx ⟨0, user.ID, t, d.Hash, d.Choice, false⟩).1
      (modified ++ [(dbCreate tx ⟨0, user.ID, t, d.Hash, d.Choice, false⟩).2]) := by
  have hno : ¬ ∃ v ∈ dbFind rows0 user.ID t, v.Hash = d.Hash ∧ v.Type_ = t :=
    fun h => hm ((matchedVote_none_iff _ _ _).2 h)
  have hc : dbCreate tx ⟨0, user.ID, t, d.Hash, d.Choice, false⟩ =
      (tx ++ [⟨freshID tx, user.ID, t, d.Hash, d.Choice, false⟩],
        ⟨freshID tx, user.ID, t, d.Hash, d.Choice, false⟩) := by
    unfold dbCreate; simp
  rw [hc]
  simp only []
  have hdone : ∀ x, x ∈ done.map VoteDto.Hash → x ∈ (done ++ [d]).map VoteDto.Hash := by
    intro x hx; rw [List.map_append]; exact List.mem_append_left _ hx
  have hdn : d.Hash ∈ (done ++ [d]).map VoteDto.Hash := by
    rw [List.map_append]; exact List.mem_append_right _ (by simp)
  have hfresh : ∀ r ∈ tx, r.ID ≠ freshID tx := fun r hr => Nat.ne_of_lt (lt_freshID tx r hr)
  refine ⟨?_, ?_, ?_, ?_, ?_, ?_, ?_⟩
  · intro r hr r2 hr2 hid
    rcases List.mem_append.1 hr with hr | hr <;> rcases List.mem_append.1 hr2 with hr2 | hr2
    · exact inv.idInj r hr r2 hr2 hid
    · simp only [List.mem_singleton] at hr2; subst hr2
      exact absurd hid (hfresh r hr)
    · simp only [List.mem_singleton] at hr; subst hr
      exact absurd hid.symm (hfresh r2 hr2)
    · simp only [List.mem_singleton] at hr hr2; rw [hr, hr2]
  · intro r hr
    rcases List.mem_append.1 hr with hr | hr
    · exact inv.idSet r hr
    · simp only [List.mem_singleton] at hr; subst hr
      show freshID tx ≠ 0
      unfold freshID; omega
  · intro b hb
    rcases inv.intact b hb with ⟨ht, hd⟩ | hd
    · exact Or.inl ⟨ht, hdone _ hd⟩
    · exact Or.inr (List.mem_append_left _ hd)
  · intro m hmm
    rcases List.mem_append.1 hmm with hmm | hmm
    · obtain ⟨hmt, hty, hmh⟩ := inv.mods m hmm
      exact ⟨List.mem_append_left _ hmt, hty, hdone _ hmh⟩
    · simp only [List.mem_singleton] at hmm; subst hmm
      exact ⟨List.mem_append_right _ (by simp), rfl, hdn⟩
  · intro r hr
    rcases List.mem_append.1 hr with hr | hr
    · rcases inv.origin r hr with h1 | ⟨h1, h2⟩
      · exact Or.inl h1
      · exact Or.inr ⟨h1, hdone _ h2⟩
    · simp only [List.mem_singleton] at hr; subst hr
      exact Or.inr ⟨rfl, hdn⟩
  · intro d2 hd2
    rcases List.mem_append.1 hd2 with hd2 | hd2
    · obtain ⟨m, hmm, hrest⟩ := inv.content d2 hd2
      exact ⟨m, List.mem_append_left _ hmm, hrest⟩
    · simp only [List.mem_singleton] at hd2; subst hd2
      exact ⟨⟨freshID tx, user.ID, t, d2.Hash, d2.Choice, false⟩,
        List.mem_append_right _ (by simp), rfl, rfl, fun _ => rfl, fun _ => rfl⟩
  · intro hu
    have hux := inv.uniq hu
    unfold UniquePerKey at hux ⊢
    rw [List.map_append, List.nodup_append]
    refine ⟨hux, by simp, ?_⟩
    intro k hk hk2
    simp only [List.map_cons, List.map_nil, List.mem_singleton] at hk2
    obtain ⟨r, hr, hrk⟩ := List.mem_map.1 hk
    rw [hk2] at hrk
    simp only [Vote.key, Prod.mk.injEq] at hrk
    rcases inv.origin r hr with ⟨b, hb, hbk⟩ | ⟨-, h2⟩
    · simp only [Vote.key, Prod.mk.injEq] at hbk
      apply hno
      refine ⟨b, (mem_dbFind _ _ _ b).2 ⟨hb, Or.inr ?_, Or.inr ?_⟩, ?_, ?_⟩
      · rw [hbk.1, hrk.1]
      · rw [hbk.2.1, hrk.2.1]
      · rw [hbk.2.2, hrk.2.2]
      · rw [hbk.2.1, hrk.2.1]
    · rw [hrk.2.2] at h2; exact hnew h2

theorem txLoop_inv (env : Env) (rows0 : List Vote) (user : User) (t : VoteType)
    (dtos : List VoteDto) (done : List VoteDto) (i : Nat) (tx modified tx2 modified2 : List Vote)
    (inv : TxInv rows0 user t done tx modified)
    (hnd : ((done ++ dtos).map VoteDto.Hash).Nodup)
    (hrun : txLoop env user t (dbFind rows0 user.ID t) dtos i tx modified =
      .ok (tx2, modified2)) :
    TxInv rows0 user t (done ++ dtos) tx2 modified2 := by
  induction dtos generalizing done i tx modified with
  | nil =>
    unfold txLoop at hrun
    simp only [Except.ok.injEq, Prod.mk.injEq] at hrun
    rw [← hrun.1, ← hrun.2, List.append_nil]
    exact inv
  | cons d rest ih =>
    have hsplit : done ++ d :: rest = (done ++ [d]) ++ rest := by simp
    have hnew : d.Hash ∉ done.map VoteDto.Hash := by
      rw [List.map_append, List.nodup_append] at hnd
      intro hin
      exact hnd.2.2 hin (by simp)
    rw [hsplit] at hnd ⊢
    unfold txLoop at hrun
    simp only [] at hrun
    by_cases hm : (matchedVote d.Hash t (dbFind rows0 user.ID t)).2 = none
    · rw [if_pos hm] at hrun
      cases hw : env.writeErr i with
      | some e => rw [hw] at hrun; simp at hrun
      | none =>
        rw [hw] at hrun
        exact ih (done ++ [d]) (i + 1) _ _
          (TxInv.update rows0 user t done tx modified d inv hnew hm) hnd hrun
    · rw [if_neg hm] at hrun
      cases hw : env.writeErr i with
      | some e => rw [hw] at hrun; simp at hrun
      | none =>
        rw [hw] at hrun
        exact ih (done ++ [d]) (i + 1) _ _
          (TxInv.create rows0 user t done tx modified d inv hnew hm) hnd hrun

/-! ## Propagation of the records of a committed batch -/

theorem PropInv.save (rows M : List Vote) (w : Vote) (inv : PropInv rows M) (hw : w ∈ M) :
    PropInv (dbSave rows { w with Committed := true }) M ∧
      (dbSave rows { w with Committed := true }).map Vote.key = rows.map Vote.key := by
  obtain ⟨hw0, r0, hr0, hcore⟩ := inv.stored w hw
  have hcore0 := hcore
  simp only [Vote.core, Prod.mk.injEq] at hcore0
  have hany : (rows.any (fun r => r.ID = w.ID)) = true :=
    List.any_eq_true.2 ⟨r0, hr0, by simpa using hcore0.1⟩
  have hsave : dbSave rows { w with Committed := true } =
      rows.map (fun r => if r.ID = w.ID then { w with Committed := true } else r) := by
    unfold dbSave
    rw [if_pos ⟨hw0, hany⟩]
  rw [hsave]
  have hsame : ∀ r ∈ rows, r.ID = w.ID → r.core = w.core := by
    intro r hr hid
    rw [inv.idInj r hr r0 hr0 (by rw [hid, hcore0.1])]
    exact hcore
  have hfcore : ∀ r ∈ rows,
      (if r.ID = w.ID then { w with Committed := true } else r).core = r.core := by
    intro r hr
    split
    · next hid => rw [hsame r hr hid]; rfl
    · rfl
  refine ⟨⟨?_, ?_⟩, ?_⟩
  · intro r hr r2 hr2 hid
    obtain ⟨x, hx, rfl⟩ := List.mem_map.1 hr
    obtain ⟨y, hy, rfl⟩ := List.mem_map.1 hr2
    have hxy : x.ID = y.ID := by
      have h1 := hfcore x hx
      have h2 := hfcore y hy
      simp only [Vote.core, Prod.mk.injEq] at h1 h2
      rw [← h1.1, ← h2.1]; exact hid
    rw [inv.idInj x hx y hy hxy]
  · intro m hm
    obtain ⟨hm0, r, hr, hrm⟩ := inv.stored m hm
    exact ⟨hm0, _, List.mem_map.2 ⟨r, hr, rfl⟩, by rw [hfcore r hr]; exact hrm⟩
  · rw [List.map_map]
    apply List.map_congr_left
    intro r hr
    have h1 := hfcore r hr
    simp only [Vote.core, Prod.mk.injEq] at h1
    simp only [Function.comp, Vote.key, Prod.mk.injEq]
    exact ⟨h1.2.1, h1.2.2.1, h1.2.2.2.1⟩

theorem voteLoop_prop (env : Env) (a : Address) (i : Nat) (M V : List Vote)
    (hV : ∀ v ∈ V, v ∈ M) (j : Nat) (s : Result) (inv : PropInv s.rows M) :
    PropInv (voteLoop env a i V j s).rows M ∧
      (voteLoop env a i V j s).rows.map Vote.key = s.rows.map Vote.key := by
  induction V generalizing j s with
  | nil => exact ⟨inv, rfl⟩
  | cons v rest ih =>
    unfold voteLoop
    simp only []
    have hstep : PropInv (if env.remote i j = none then
          if env.saveOk i j = true then dbSave s.rows { v with Committed := true } else s.rows
          else s.rows) M ∧
        (if env.remote i j = none then
          if env.saveOk i j = true then dbSave s.rows { v with Committed := true } else s.rows
          else s.rows).map Vote.key = s.rows.map Vote.key := by
      split
      · split
        · exact PropInv.save s.rows M v inv (hV v (List.mem_cons_self _ _))
        · exact ⟨inv, rfl⟩
      · exact ⟨inv, rfl⟩
    obtain ⟨h1, h2⟩ := ih (fun x hx => hV x (List.mem_cons_of_mem _ hx)) (j + 1)
      ⟨env.remote i j, _, s.trace ++ [poolCall a v]⟩ hstep.1
    exact ⟨h1, h2.trans hstep.2⟩

theorem addressLoop_prop (env : Env) (M V : List Vote) (hV : ∀ v ∈ V, v ∈ M)
    (A : List Address) (i : Nat) (s : Result) (inv : PropInv s.rows M) :
    PropInv (addressLoop env V A i s).rows M ∧
      (addressLoop env V A i s).rows.map Vote.key = s.rows.map Vote.key := by
  induction A generalizing i s with
  | nil => exact ⟨inv, rfl⟩
  | cons a rest ih =>
    unfold addressLoop
    obtain ⟨h1, h2⟩ := voteLoop_prop env a i M V hV 0 s inv
    obtain ⟨h3, h4⟩ := ih (i + 1) _ h1
    exact ⟨h3, h4.trans h2⟩

theorem updatePoolVotes_prop (env : Env) (rows M : List Vote) (user : User)
    (inv : PropInv rows M) :
    PropInv (updatePoolVotes env rows M user).rows M ∧
      (updatePoolVotes env rows M user).rows.map Vote.key = rows.map Vote.key := by
  unfold updatePoolVotes
  cases env.connPool with
  | some e => exact ⟨inv, rfl⟩
  | none =>
    cases env.addresses with
    | error e => exact ⟨inv, rfl⟩
    | ok A => exact addressLoop_prop env M M (fun _ h => h) A 0 _ inv

/-! ## The whole call on a batch with pairwise distinct hashes -/

theorem localPhase_ok (env : Env) (rows : List Vote) (t : VoteType) (unable : Error)
    (dtos : List VoteDto) (user : User)
    (h : (localPhase env rows t unable dtos user).err = none) :
    txLoop env user t (dbFind rows user.ID t) dtos 0 rows [] =
      .ok ((localPhase env rows t unable dtos user).rows,
        (localPhase env rows t unable dtos user).modifiedVotes) := by
  unfold localPhase at h ⊢
  cases hc : env.connUpdate with
  | some e => simp [hc] at h
  | none =>
    simp only [hc] at h ⊢
    unfold getVotes at h ⊢
    cases hg : env.connGet with
    | some e => simp [hg] at h
    | none =>
      simp only [hg] at h ⊢
      by_cases hf : env.findFails = true
      · simp [hf] at h
      · simp only [hf] at h ⊢
        simp only [Bool.false_eq_true, if_false] at h ⊢
        cases htx : txLoop env user t (dbFind rows user.ID t) dtos 0 rows [] with
        | error e => simp [htx] at h
        | ok p =>
          simp only [htx] at h ⊢
          cases hce : env.commitErr with
          | some e => simp [hce] at h
          | none => rfl

theorem updateVotes_of_local_ok (env : Env) (rows : List Vote) (t : VoteType)
    (unable : Error) (dtos : List VoteDto) (user : User)
    (h : (localPhase env rows t unable dtos user).err = none) :
    updateVotes env rows t unable dtos user =
      updatePoolVotes env (localPhase env rows t unable dtos user).rows
        (localPhase env rows t unable dtos user).modifiedVotes user := by
  unfold updateVotes
  simp only [h]

theorem updateVotes_distinct (env : Env) (rows : List Vote) (t : VoteType) (unable : Error)
    (dtos : List VoteDto) (user : User) (hwf : StoreWF rows)
    (hnd : (dtos.map VoteDto.Hash).Nodup)
    (h : (localPhase env rows t unable dtos user).err = none) :
    (∀ d ∈ dtos, d.Choice ≠ "" → user.ID ≠ 0 →
        Persisted (updateVotes env rows t unable dtos user).rows user.ID t d) ∧
      (UniquePerKey rows → UniquePerKey (updateVotes env rows t unable dtos user).rows) := by
  have hrun := localPhase_ok env rows t unable dtos user h
  have inv := txLoop_inv env rows user t dtos [] 0 rows [] _ _
    (TxInv.init rows user t hwf) (by simpa using hnd) hrun
  rw [List.nil_append] at inv
  have pinv : PropInv (localPhase env rows t unable dtos user).rows
      (localPhase env rows t unable dtos user).modifiedVotes :=
    ⟨inv.idInj, fun m hm => ⟨inv.idSet m (inv.mods m hm).1, m, (inv.mods m hm).1, rfl⟩⟩
  obtain ⟨pfin, hkeys⟩ := updatePoolVotes_prop env _ _ user pinv
  rw [updateVotes_of_local_ok env rows t unable dtos user h]
  constructor
  · intro d hd hc hu
    obtain ⟨m, hm, hmt, hmh, hmc, hmu⟩ := inv.content d hd
    obtain ⟨-, r, hr, hcore⟩ := pfin.stored m hm
    simp only [Vote.core, Prod.mk.injEq] at hcore
    exact ⟨r, hr, by rw [hcore.2.1]; exact hmu hu, by rw [hcore.2.2.1]; exact hmt,
      by rw [hcore.2.2.2.1]; exact hmh, by rw [hcore.2.2.2.2]; exact hmc hc⟩
  · intro hu
    unfold UniquePerKey
    rw [hkeys]
    exact inv.uniq hu

theorem updateVotes_unique (env : Env) (rows : List Vote) (t : VoteType) (unable : Error)
    (dtos : List VoteDto) (user : User) (hwf : StoreWF rows) (hu : UniquePerKey rows)
    (hnd : (dtos.map VoteDto.Hash).Nodup) :
    UniquePerKey (updateVotes env rows t unable dtos user).rows := by
  by_cases h : (localPhase env rows t unable dtos user).err = none
  · exact (updateVotes_distinct env rows t unable dtos user hwf hnd h).2 hu
  · rw [(updateVotes_of_local_error env rows t unable dtos user h).2.1,
      localPhase_error_rows env rows t unable dtos user h]
    exact hu

/-! ## Claims about the whole call -/

theorem txLoop_length (env : Env) (user : User) (t : VoteType) (votes : List Vote)
    (dtos : List VoteDto) (i : Nat) (tx modified tx2 modified2 : List Vote)
    (hrun : txLoop env user t votes dtos i tx modified = .ok (tx2, modified2)) :
    modified2.length = modified.length + dtos.length := by
  induction dtos generalizing i tx modified with
  | nil =>
    unfold txLoop at hrun
    simp only [Except.ok.injEq, Prod.mk.injEq] at hrun
    rw [← hrun.2]; rfl
  | cons d rest ih =>
    unfold txLoop at hrun
    simp only [] at hrun
    cases hw : env.writeErr i with
    | some e => rw [hw] at hrun; split at hrun <;> simp at hrun
    | none =>
      rw [hw] at hrun
      split at hrun
      · rw [ih _ _ _ hrun]; simp; omega
      · rw [ih _ _ _ hrun]; simp; omega

/-- C2 (code defect): the local phase is atomic, it ends either with an error and the
table as before the call, or without error and the table produced by the complete loop
over all N intents; but a row updated by the loop keeps the committed flag it had, so a
row stored with committed = true is written with the new choice and still
committed = true. -/
theorem localPhase_atomic_flag_kept :
    (∀ (env : Env) (rows : List Vote) (t : VoteType) (unable : Error) (dtos : List VoteDto)
        (user : User),
      ((localPhase env rows t unable dtos user).err ≠ none ∧
        (localPhase env rows t unable dtos user).rows = rows) ∨
      ((localPhase env rows t unable dtos user).err = none ∧
        txLoop env user t (dbFind rows user.ID t) dtos 0 rows [] =
          .ok ((localPhase env rows t unable dtos user).rows,
            (localPhase env rows t unable dtos user).modifiedVotes) ∧
        (localPhase env rows t unable dtos user).modifiedVotes.length = dtos.length)) ∧
    localPhase envOk [⟨1, 7, "PROPOSAL", "p1", "NO", true⟩] VoteTypeProposal
        ErrorUnableToGetProposalVotes [⟨"p1", "YES"⟩] ⟨7⟩ =
      ⟨none, [⟨1, 7, "PROPOSAL", "p1", "YES", true⟩],
        [⟨1, 7, "PROPOSAL", "p1", "YES", true⟩]⟩ ∧
    localPhase envOk [⟨1, 7, "PAYMENT_REQUEST", "p1", "NO", true⟩] VoteTypePaymentRequest
        ErrorUnableToGetPaymentRequestVotes [⟨"p1", "YES"⟩] ⟨7⟩ =
      ⟨none, [⟨1, 7, "PAYMENT_REQUEST", "p1", "YES", true⟩],
        [⟨1, 7, "PAYMENT_REQUEST", "p1", "YES", true⟩]⟩ := by
  refine ⟨?_, by decide, by decide⟩
  intro env rows t unable dtos user
  by_cases h : (localPhase env rows t unable dtos user).err = none
  · have hrun := localPhase_ok env rows t unable dtos user h
    refine Or.inr ⟨h, hrun, ?_⟩
    have := txLoop_length env user t _ dtos 0 rows [] _ _ hrun
    simpa using this
  · exact Or.inl ⟨h, localPhase_error_rows env rows t unable dtos user h⟩

/-- C5 (code defect): resubmitting the choice YES for a row stored with choice YES and
committed = true leaves the row, as persisted by the transaction and as handed to
propagation, with committed = true; when the remote submission then fails the call ends
with the row still stored as committed. -/
theorem resubmission_keeps_committed :
    (localPhase envRemoteDown [⟨1, 7, "PROPOSAL", "p1", "YES", true⟩] VoteTypeProposal
        ErrorUnableToGetProposalVotes [⟨"p1", "YES"⟩] ⟨7⟩).rows =
      [⟨1, 7, "PROPOSAL", "p1", "YES", true⟩] ∧
    (localPhase envRemoteDown [⟨1, 7, "PROPOSAL", "p1", "YES", true⟩] VoteTypeProposal
        ErrorUnableToGetProposalVotes [⟨"p1", "YES"⟩] ⟨7⟩).modifiedVotes =
      [⟨1, 7, "PROPOSAL", "p1", "YES", true⟩] ∧
    UpdateProposalVotes envRemoteDown [⟨1, 7, "PROPOSAL", "p1", "YES", true⟩]
        [⟨"p1", "YES"⟩] ⟨7⟩ =
      ⟨some "pool unreachable", [⟨1, 7, "PROPOSAL", "p1", "YES", true⟩],
        [Event.GetAddresses 7, Event.ProposalVote "addr1" "p1" "yes"]⟩ := by
  refine ⟨by decide, by decide, by decide⟩

/-- C3 fails as stated: with two addresses, the submission for the first succeeding and
the one for the second failing, the vote ends the pass stored with committed = true
although not every submission made for it succeeded. -/
theorem flag_true_despite_failed_address :
    envSecondAddressDown.addresses = .ok [⟨"addr1"⟩, ⟨"addr2"⟩] ∧
    committedFlag [⟨1, 7, "PROPOSAL", "p1", "YES", false⟩] 1 = some false ∧
    committedFlag (updatePoolVotes envSecondAddressDown
        [⟨1, 7, "PROPOSAL", "p1", "YES", false⟩] [⟨1, 7, "PROPOSAL", "p1", "YES", false⟩]
        ⟨7⟩).rows 1 = some true ∧
    ¬ AllSucceedFor envSecondAddressDown [⟨"addr1"⟩, ⟨"addr2"⟩]
        [⟨1, 7, "PROPOSAL", "p1", "YES", false⟩] 1 := by
  refine ⟨rfl, by decide, by decide, ?_⟩
  intro h
  have := h 1 0 ⟨"addr2"⟩ ⟨1, 7, "PROPOSAL", "p1", "YES", false⟩ rfl rfl rfl
  simp [envSecondAddressDown] at this

theorem updatePoolVotes_flag_any_witness :
    (committedFlag (updatePoolVotes envSecondAddressDown
        [⟨1, 7, "PROPOSAL", "p1", "YES", false⟩] [⟨1, 7, "PROPOSAL", "p1", "YES", false⟩]
        ⟨7⟩).rows 1 = some true ↔
      SucceedsFor envSecondAddressDown [⟨"addr1"⟩, ⟨"addr2"⟩]
        [⟨1, 7, "PROPOSAL", "p1", "YES", false⟩] 1) :=
  (updatePoolVotes_flag_any envSecondAddressDown [⟨1, 7, "PROPOSAL", "p1", "YES", false⟩]
    [⟨1, 7, "PROPOSAL", "p1", "YES", false⟩] ⟨7⟩ [⟨"addr1"⟩, ⟨"addr2"⟩] rfl rfl (by simp)
    (fun _ _ => rfl) ⟨1, 7, "PROPOSAL", "p1", "YES", false⟩ (by simp) (by decide)
    (by decide)).1

theorem updatePoolVotes_independent_witness :
    submissions (updatePoolVotes envSecondAddressDown
        [⟨1, 7, "PROPOSAL", "p1", "YES", false⟩, ⟨2, 7, "PAYMENT_REQUEST", "r1", "NO", false⟩]
        [⟨1, 7, "PROPOSAL", "p1", "YES", false⟩, ⟨2, 7, "PAYMENT_REQUEST", "r1", "NO", false⟩]
        ⟨7⟩).trace =
      [Event.ProposalVote "addr1" "p1" "yes", Event.PaymentRequestVote "addr1" "r1" "no",
        Event.ProposalVote "addr2" "p1" "yes", Event.PaymentRequestVote "addr2" "r1" "no"] :=
  (updatePoolVotes_independent envSecondAddressDown
    [⟨1, 7, "PROPOSAL", "p1", "YES", false⟩, ⟨2, 7, "PAYMENT_REQUEST", "r1", "NO", false⟩]
    [⟨1, 7, "PROPOSAL", "p1", "YES", false⟩, ⟨2, 7, "PAYMENT_REQUEST", "r1", "NO", false⟩]
    ⟨7⟩ [⟨"addr1"⟩, ⟨"addr2"⟩] rfl rfl).1

/-- C8 fails as stated: two records of the list carry the same primary key; the only
submission made for the second one fails, the one made for the first succeeds and is
saved, and the vote stored with committed = false ends the pass with committed = true. -/
theorem failed_record_flag_raised_by_same_key :
    envLaterVotesDown.addresses = .ok [⟨"addr1"⟩] ∧
    committedFlag [⟨1, 7, "PROPOSAL", "p1", "NO", false⟩] 1 = some false ∧
    envLaterVotesDown.remote 0 1 ≠ none ∧
    submissions (updatePoolVotes envLaterVotesDown [⟨1, 7, "PROPOSAL", "p1", "NO", false⟩]
        [⟨1, 7, "PROPOSAL", "p1", "YES", false⟩, ⟨1, 7, "PROPOSAL", "p1", "NO", false⟩]
        ⟨7⟩).trace =
      [Event.ProposalVote "addr1" "p1" "yes", Event.ProposalVote "addr1" "p1" "no"] ∧
    committedFlag (updatePoolVotes envLaterVotesDown [⟨1, 7, "PROPOSAL", "p1", "NO", false⟩]
        [⟨1, 7, "PROPOSAL", "p1", "YES", false⟩, ⟨1, 7, "PROPOSAL", "p1", "NO", false⟩]
        ⟨7⟩).rows 1 = some true := by
  refine ⟨rfl, by decide, by decide, by decide, by decide⟩

theorem updatePoolVotes_call_shape_witness :
    (submissions (updatePoolVotes envOk []
        [⟨1, 7, "PROPOSAL", "p1", "YES", false⟩, ⟨2, 7, "PAYMENT_REQUEST", "r1", "ABSTAIN", false⟩]
        ⟨7⟩).trace)[0 * 2 + 1]? =
      some (Event.PaymentRequestVote "addr1" "r1" "remove") :=
  (updatePoolVotes_call_shape envOk []
    [⟨1, 7, "PROPOSAL", "p1", "YES", false⟩, ⟨2, 7, "PAYMENT_REQUEST", "r1", "ABSTAIN", false⟩]
    ⟨7⟩ [⟨"addr1"⟩] rfl rfl 0 1 ⟨"addr1"⟩ ⟨2, 7, "PAYMENT_REQUEST", "r1", "ABSTAIN", false⟩
    rfl rfl).2.1 rfl

/-- C4 fails as stated: on an empty table, two intents with the same hash are both
unmatched against the fetched baseline and the committed call leaves two rows with the
same (userID, type, hash). -/
theorem duplicate_hash_creates_two_rows :
    UniquePerKey [] ∧
    (localPhase envOk [] VoteTypeProposal ErrorUnableToGetProposalVotes
      [⟨"p1", "YES"⟩, ⟨"p1", "NO"⟩] ⟨7⟩).err = none ∧
    (UpdateProposalVotes envOk [] [⟨"p1", "YES"⟩, ⟨"p1", "NO"⟩] ⟨7⟩).rows =
      [⟨1, 7, "PROPOSAL", "p1", "YES", true⟩, ⟨2, 7, "PROPOSAL", "p1", "NO", true⟩] ∧
    ¬ UniquePerKey (UpdateProposalVotes envOk [] [⟨"p1", "YES"⟩, ⟨"p1", "NO"⟩] ⟨7⟩).rows := by
  refine ⟨by unfold UniquePerKey; decide, by decide, by decide, ?_⟩
  unfold UniquePerKey
  decide

/-- C4 as amended: on a table with set, pairwise distinct primary keys and at most one row
per (userID, type, hash), a call whose intents have pairwise distinct hashes leaves at most
one row per (userID, type, hash), whatever fails during the call. -/
theorem uniqueness_preserved (env : Env) (rows : List Vote) (dtos : List VoteDto) (user : User)
    (hwf : StoreWF rows) (hu : UniquePerKey rows) (hnd : (dtos.map VoteDto.Hash).Nodup) :
    UniquePerKey (UpdateProposalVotes env rows dtos user).rows ∧
      UniquePerKey (UpdatePaymentRequestVotes env rows dtos user).rows :=
  ⟨updateVotes_unique env rows _ _ dtos user hwf hu hnd,
    updateVotes_unique env rows _ _ dtos user hwf hu hnd⟩

theorem uniqueness_preserved_witness :
    UniquePerKey (UpdateProposalVotes envSecondAddressDown
        [⟨1, 7, "PROPOSAL", "p1", "NO", true⟩, ⟨2, 7, "PAYMENT_REQUEST", "p1", "NO", false⟩]
        [⟨"p1", "YES"⟩, ⟨"p2", "NO"⟩] ⟨7⟩).rows ∧
      UniquePerKey (UpdatePaymentRequestVotes envSecondAddressDown
        [⟨1, 7, "PROPOSAL", "p1", "NO", true⟩, ⟨2, 7, "PAYMENT_REQUEST", "p1", "NO", false⟩]
        [⟨"p1", "YES"⟩, ⟨"p2", "NO"⟩] ⟨7⟩).rows :=
  uniqueness_preserved envSecondAddressDown
    [⟨1, 7, "PROPOSAL", "p1", "NO", true⟩, ⟨2, 7, "PAYMENT_REQUEST", "p1", "NO", false⟩]
    [⟨"p1", "YES"⟩, ⟨"p2", "NO"⟩] ⟨7⟩ (by unfold StoreWF; decide)
    (by unfold UniquePerKey; decide) (by decide)

/-- C6 fails as stated: with the intents (p1, YES) and (p1, NO) matching one stored row,
the transaction commits the row with choice NO; the submission for the first record
succeeds and saves that record, the one for the second fails, and the call ends with the
row holding choice YES: the choice the transaction persisted is no longer stored. -/
theorem stale_record_overwrites_committed_choice :
    localPhase envLaterVotesDown [⟨1, 7, "PROPOSAL", "p1", "ABSTAIN", false⟩] VoteTypeProposal
        ErrorUnableToGetProposalVotes [⟨"p1", "YES"⟩, ⟨"p1", "NO"⟩] ⟨7⟩ =
      ⟨none, [⟨1, 7, "PROPOSAL", "p1", "NO", false⟩],
        [⟨1, 7, "PROPOSAL", "p1", "YES", false⟩, ⟨1, 7, "PROPOSAL", "p1", "NO", false⟩]⟩ ∧
    (UpdateProposalVotes envLaterVotesDown [⟨1, 7, "PROPOSAL", "p1", "ABSTAIN", false⟩]
        [⟨"p1", "YES"⟩, ⟨"p1", "NO"⟩] ⟨7⟩).rows =
      [⟨1, 7, "PROPOSAL", "p1", "YES", true⟩] ∧
    ¬ Persisted (UpdateProposalVotes envLaterVotesDown
        [⟨1, 7, "PROPOSAL", "p1", "ABSTAIN", false⟩] [⟨"p1", "YES"⟩, ⟨"p1", "NO"⟩] ⟨7⟩).rows
      7 VoteTypeProposal ⟨"p1", "NO"⟩ := by
  refine ⟨by decide, by decide, ?_⟩
  unfold Persisted
  decide

/-- C6 as amended: for a batch of non-empty choices with pairwise distinct hashes, once
the transaction has committed every intent has a row with its hash and choice in the table
the call leaves behind, whatever fails during propagation; and with no prior votes, the
one intent (p1, YES), one address and a failing remote submission, the table ends as the
single row (p1, YES, committed = false). -/
theorem committed_batch_survives_propagation (env : Env) (rows : List Vote)
    (dtos : List VoteDto) (user : User) (hwf : StoreWF rows)
    (hnd : (dtos.map VoteDto.Hash).Nodup) (hch : ∀ d ∈ dtos, d.Choice ≠ "")
    (hu : user.ID ≠ 0) :
    ((localPhase env rows VoteTypeProposal ErrorUnableToGetProposalVotes dtos user).err = none →
      ∀ d ∈ dtos,
        Persisted (UpdateProposalVotes env rows dtos user).rows user.ID VoteTypeProposal d) ∧
    ((localPhase env rows VoteTypePaymentRequest ErrorUnableToGetPaymentRequestVotes dtos
        user).err = none →
      ∀ d ∈ dtos,
        Persisted (UpdatePaymentRequestVotes env rows dtos user).rows user.ID
          VoteTypePaymentRequest d) ∧
    (∀ (a : Address) (e : Error), env.connUpdate = none → env.connGet = none →
      env.findFails = false → env.writeErr 0 = none → env.commitErr = none →
      env.connPool = none → env.addresses = .ok [a] → env.remote 0 0 = some e →
      (UpdateProposalVotes env [] [⟨"p1", "YES"⟩] user).rows =
        [⟨1, user.ID, "PROPOSAL", "p1", "YES", false⟩]) := by
  refine ⟨?_, ?_, ?_⟩
  · intro h d hd
    exact (updateVotes_distinct env rows _ _ dtos user hwf hnd h).1 d hd (hch d hd) hu
  · intro h d hd
    exact (updateVotes_distinct env rows _ _ dtos user hwf hnd h).1 d hd (hch d hd) hu
  · intro a e h1 h2 h3 h4 h5 h6 h7 h8
    simp [UpdateProposalVotes, updateVotes, localPhase, getVotes, h1, h2, h3, h4, h5,
      txLoop, matchedVote, dbFind, dbCreate, freshID, updatePoolVotes, h6, h7, addressLoop,
      voteLoop, h8, VoteTypeProposal]

theorem committed_batch_survives_propagation_witness :
    Persisted (UpdateProposalVotes envRemoteDown [⟨1, 7, "PROPOSAL", "p1", "NO", true⟩]
        [⟨"p1", "YES"⟩, ⟨"p2", "NO"⟩] ⟨7⟩).rows 7 VoteTypeProposal ⟨"p1", "YES"⟩ ∧
      Persisted (UpdateProposalVotes envRemoteDown [⟨1, 7, "PROPOSAL", "p1", "NO", true⟩]
        [⟨"p1", "YES"⟩, ⟨"p2", "NO"⟩] ⟨7⟩).rows 7 VoteTypeProposal ⟨"p2", "NO"⟩ :=
  ⟨(committed_batch_survives_propagation envRemoteDown
      [⟨1, 7, "PROPOSAL", "p1", "NO", true⟩] [⟨"p1", "YES"⟩, ⟨"p2", "NO"⟩] ⟨7⟩
      (by unfold StoreWF; decide) (by decide) (by decide) (by decide)).1 (by decide)
      ⟨"p1", "YES"⟩ (by simp),
    (committed_batch_survives_propagation envRemoteDown
      [⟨1, 7, "PROPOSAL", "p1", "NO", true⟩] [⟨"p1", "YES"⟩, ⟨"p2", "NO"⟩] ⟨7⟩
      (by unfold StoreWF; decide) (by decide) (by decide) (by decide)).1 (by decide)
      ⟨"p2", "NO"⟩ (by simp)⟩

/-- C7 fails as stated: with no prior votes and a failing remote submission the call
returns a non-nil error and the table is not as before the call, it holds the new row. -/
theorem error_returned_with_row_created :
    (UpdateProposalVotes envRemoteDown [] [⟨"p1", "YES"⟩] ⟨7⟩).err = some "pool unreachable" ∧
    (UpdateProposalVotes envRemoteDown [] [⟨"p1", "YES"⟩] ⟨7⟩).rows =
      [⟨1, 7, "PROPOSAL", "p1", "YES", false⟩] ∧
    (UpdateProposalVotes envRemoteDown [] [⟨"p1", "YES"⟩] ⟨7⟩).rows ≠ [] := by
  refine ⟨by decide, by decide, by decide⟩

/-- C7 as amended: for every call, an error that ends the local phase (the connection
opened by the update function, the baseline fetch with its connection, a create/update,
the commit) is the error the call returns and the table is as before the call; on a table
with set, pairwise distinct primary keys, for a user with a set identifier and a batch of
non-empty choices with pairwise distinct hashes, once the local phase has succeeded
every intent is persisted whatever propagation returns, so in particular when the call
returns nil. -/
theorem update_fails_locally_or_persists (env : Env) (rows : List Vote) (dtos : List VoteDto)
    (user : User) :
    (((localPhase env rows VoteTypeProposal ErrorUnableToGetProposalVotes dtos user).err ≠ none →
        (UpdateProposalVotes env rows dtos user).err =
          (localPhase env rows VoteTypeProposal ErrorUnableToGetProposalVotes dtos user).err ∧
        (UpdateProposalVotes env rows dtos user).rows = rows) ∧
      ((localPhase env rows VoteTypePaymentRequest ErrorUnableToGetPaymentRequestVotes dtos
          user).err ≠ none →
        (UpdatePaymentRequestVotes env rows dtos user).err =
          (localPhase env rows VoteTypePaymentRequest ErrorUnableToGetPaymentRequestVotes dtos
            user).err ∧
        (UpdatePaymentRequestVotes env rows dtos user).rows = rows)) ∧
    (StoreWF rows → (dtos.map VoteDto.Hash).Nodup → (∀ d ∈ dtos, d.Choice ≠ "") →
      user.ID ≠ 0 →
      (((localPhase env rows VoteTypeProposal ErrorUnableToGetProposalVotes dtos user).err =
            none →
          ∀ d ∈ dtos,
            Persisted (UpdateProposalVotes env rows dtos user).rows user.ID
              VoteTypeProposal d) ∧
        ((UpdateProposalVotes env rows dtos user).err = none →
          ∀ d ∈ dtos,
            Persisted (UpdateProposalVotes env rows dtos user).rows user.ID
              VoteTypeProposal d)) ∧
      (((localPhase env rows VoteTypePaymentRequest ErrorUnableToGetPaymentRequestVotes dtos
            user).err = none →
          ∀ d ∈ dtos,
            Persisted (UpdatePaymentRequestVotes env rows dtos user).rows user.ID
              VoteTypePaymentRequest d) ∧
        ((UpdatePaymentRequestVotes env rows dtos user).err = none →
          ∀ d ∈ dtos,
            Persisted (UpdatePaymentRequestVotes env rows dtos user).rows user.ID
              VoteTypePaymentRequest d))) := by
  have roll : ∀ (t : VoteType) (unable : Error),
      (localPhase env rows t unable dtos user).err ≠ none →
        (updateVotes env rows t unable dtos user).err =
          (localPhase env rows t unable dtos user).err ∧
        (updateVotes env rows t unable dtos user).rows = rows := by
    intro t unable h
    obtain ⟨he, hr, -⟩ := updateVotes_of_local_error env rows t unable dtos user h
    exact ⟨he, by rw [hr, localPhase_error_rows env rows t unable dtos user h]⟩
  refine ⟨⟨roll _ _, roll _ _⟩, ?_⟩
  intro hwf hnd hch hu
  have keep : ∀ (t : VoteType) (unable : Error),
      ((localPhase env rows t unable dtos user).err = none →
        ∀ d ∈ dtos, Persisted (updateVotes env rows t unable dtos user).rows user.ID t d) ∧
      ((updateVotes env rows t unable dtos user).err = none →
        ∀ d ∈ dtos, Persisted (updateVotes env rows t unable dtos user).rows user.ID t d) := by
    intro t unable
    have h2 : (localPhase env rows t unable dtos user).err = none →
        ∀ d ∈ dtos, Persisted (updateVotes env rows t unable dtos user).rows user.ID t d :=
      fun h d hd =>
        (updateVotes_distinct env rows t unable dtos user hwf hnd h).1 d hd (hch d hd) hu
    refine ⟨h2, fun h => h2 ?_⟩
    by_contra hl
    rw [(roll t unable hl).1] at h
    exact hl h
  exact ⟨keep _ _, keep _ _⟩

theorem update_fails_locally_or_persists_witness :
    ((UpdatePaymentRequestVotes { envOk with commitErr := some "commit failed" }
        [⟨1, 7, "PAYMENT_REQUEST", "r1", "NO", true⟩] [⟨"r1", "YES"⟩, ⟨"r1", "NO"⟩] ⟨7⟩).err =
      (localPhase { envOk with commitErr := some "commit failed" }
        [⟨1, 7, "PAYMENT_REQUEST", "r1", "NO", true⟩] VoteTypePaymentRequest
        ErrorUnableToGetPaymentRequestVotes [⟨"r1", "YES"⟩, ⟨"r1", "NO"⟩] ⟨7⟩).err ∧
      (UpdatePaymentRequestVotes { envOk with commitErr := some "commit failed" }
        [⟨1, 7, "PAYMENT_REQUEST", "r1", "NO", true⟩] [⟨"r1", "YES"⟩, ⟨"r1", "NO"⟩] ⟨7⟩).rows =
      [⟨1, 7, "PAYMENT_REQUEST", "r1", "NO", true⟩]) ∧
    Persisted (UpdateProposalVotes { envOk with connPool := some "no connection" }
        [⟨1, 7, "PROPOSAL", "p1", "NO", false⟩] [⟨"p1", "YES"⟩, ⟨"p2", "NO"⟩] ⟨7⟩).rows 7
      VoteTypeProposal ⟨"p2", "NO"⟩ :=
  ⟨(update_fails_locally_or_persists { envOk with commitErr := some "commit failed" }
      [⟨1, 7, "PAYMENT_REQUEST", "r1", "NO", true⟩] [⟨"r1", "YES"⟩, ⟨"r1", "NO"⟩]
      ⟨7⟩).1.2 (by decide),
    ((update_fails_locally_or_persists { envOk with connPool := some "no connection" }
      [⟨1, 7, "PROPOSAL", "p1", "NO", false⟩] [⟨"p1", "YES"⟩, ⟨"p2", "NO"⟩] ⟨7⟩).2
      (by unfold StoreWF; decide) (by decide) (by decide) (by decide)).1.1 (by decide)
      ⟨"p2", "NO"⟩ (by simp)⟩

end CommunityFund
